import Mathlib

/-!
# Verification of the `uppr::gif` animated-GIF encoder

A shallow embedding of the core of the `giffer` repository (`gif.hpp` /
`gif.cpp`, namespace `uppr::gif`) together with proofs about it.

Modelling conventions:

* Byte buffers (`u8*` images, the palette's `array<u8, 256>` members, the
  LZW chunk buffer) are total functions `Nat → Nat`.  A `u8` cell is read
  through `% 256`, which models the type's value range; stores keep the raw
  written value (writes of in-range values are unaffected).
* C++ `int` / `i32` arithmetic is `Int`.  C++ integer division truncates
  toward zero, which is `Int.tdiv` (Lean's `/` on `Int` rounds toward
  negative infinity and is not used for translated code).  Conversion of an
  `int` to an unsigned type is `Int.emod` by the modulus, then `Int.toNat`.
* Loops `for (i = 0; i < n; ++i)` become the combinator `iter f n a`, which
  applies the body `f i` for `i = 0, …, n-1` in order.
* The two recursions whose measure is not structural
  (`Palette::get_closest_pallete_color`, which recurses from heap node `t`
  to `2t`/`2t+1`, and `partition_by_median` / `Palette::split`) take an
  explicit fuel argument.  Call sites use a fuel that dominates the real
  recursion depth (the k-d tree has `bit_depth ≤ 8` levels, quickselect
  shrinks the interval each step), so the fuelled functions agree with the
  C++ functions on every executed call.
* The C++ `Palette` object is created with its member arrays uninitialized;
  the constructor model therefore takes an `init : Palette` describing the
  indeterminate initial contents of those arrays.
-/

namespace Giffer

/-- Update one cell of a byte buffer. -/
def updN (f : Nat → Nat) (i v : Nat) : Nat → Nat := fun j => if j = i then v else f j

/-- Update one cell of an `i32` buffer. -/
def updI (f : Nat → Int) (i : Nat) (v : Int) : Nat → Int := fun j => if j = i then v else f j

/-- Read a `u8` cell: the stored value reduced to the type's range. -/
def byteAt (img : Nat → Nat) (a : Nat) : Nat := img a % 256

/-- C++ `for (i = 0; i < n; ++i) body` — the state after running `body i` for
`i = 0, …, n-1` in order from initial state `a`. -/
def iter (f : Nat → α → α) : Nat → α → α
  | 0, a => a
  | n + 1, a => f n (iter f n a)

/-- C++ `constexpr auto transparency_index = 0`. -/
def transparency_index : Nat := 0

/-- C++ `pixat(image, i, color)`: color component `c ∈ {0,1,2,3}` of pixel `i`.
`off` is the byte offset of the (possibly shifted) C++ pointer `image`. -/
def pixat (img : Nat → Nat) (off i c : Nat) : Nat := byteAt img (off + 4 * i + c)

/-- C++ `find_darkest_color`: componentwise minimum over the first `np` pixels. -/
def find_darkest_color (img : Nat → Nat) (off np : Nat) : Nat × Nat × Nat :=
  iter (fun i rgb => (min rgb.1 (pixat img off i 0), min rgb.2.1 (pixat img off i 1),
      min rgb.2.2 (pixat img off i 2))) np (255, 255, 255)

/-- C++ `find_lightest_color`: componentwise maximum over the first `np` pixels. -/
def find_lightest_color (img : Nat → Nat) (off np : Nat) : Nat × Nat × Nat :=
  iter (fun i rgb => (max rgb.1 (pixat img off i 0), max rgb.2.1 (pixat img off i 1),
      max rgb.2.2 (pixat img off i 2))) np (0, 0, 0)

/-- C++ `find_subcube_average`: componentwise mean with half-pixel rounding. -/
def find_subcube_average (img : Nat → Nat) (off np : Nat) : Nat × Nat × Nat :=
  let s := iter (fun i rgb => (rgb.1 + pixat img off i 0, rgb.2.1 + pixat img off i 1,
      rgb.2.2 + pixat img off i 2)) np (0, 0, 0)
  ((s.1 + np / 2) / np, (s.2.1 + np / 2) / np, (s.2.2 + np / 2) / np)

/-- Accumulator of `find_largest_range`. -/
structure RangeAcc where
  minR : Nat
  maxR : Nat
  minG : Nat
  maxG : Nat
  minB : Nat
  maxB : Nat

/-- C++ `find_largest_range`: per-channel `max - min` (C++ `int` arithmetic). -/
def find_largest_range (img : Nat → Nat) (off np : Nat) : Int × Int × Int :=
  let s := iter (fun i a =>
      let r := pixat img off i 0
      let g := pixat img off i 1
      let b := pixat img off i 2
      ⟨min a.minR r, max a.maxR r, min a.minG g, max a.maxG g, min a.minB b, max a.maxB b⟩)
    np (⟨255, 0, 255, 0, 255, 0⟩ : RangeAcc)
  ((s.maxR : Int) - s.minR, (s.maxG : Int) - s.minG, (s.maxB : Int) - s.minB)

/-- C++ `swap_pixels`: exchange the RGBA quads of pixels `a` and `b`. -/
def swap_pixels (img : Nat → Nat) (off a b : Nat) : Nat → Nat :=
  let ra := pixat img off a 0
  let ga := pixat img off a 1
  let ba := pixat img off a 2
  let aa := pixat img off a 3
  let rb := pixat img off b 0
  let gb := pixat img off b 1
  let bb := pixat img off b 2
  let ab := pixat img off b 3
  let i1 := updN img (off + 4 * a + 0) rb
  let i2 := updN i1 (off + 4 * a + 1) gb
  let i3 := updN i2 (off + 4 * a + 2) bb
  let i4 := updN i3 (off + 4 * a + 3) ab
  let i5 := updN i4 (off + 4 * b + 0) ra
  let i6 := updN i5 (off + 4 * b + 1) ga
  let i7 := updN i6 (off + 4 * b + 2) ba
  updN i7 (off + 4 * b + 3) aa

/-- Loop body of `partition`; the state is `(store_index, split, image)`. -/
def partitionStep (off elt pivot_value i : Nat) (st : Nat × Bool × (Nat → Nat)) :
    Nat × Bool × (Nat → Nat) :=
  let val := byteAt st.2.2 (off + i * 4 + elt)
  if val < pivot_value then (st.1 + 1, st.2.1, swap_pixels st.2.2 off i st.1)
  else if val = pivot_value then
    if st.2.1 then (st.1 + 1, false, swap_pixels st.2.2 off i st.1)
    else (st.1, true, st.2.2)
  else st

/-- C++ `partition`: the quicksort partition step, returning the final
`store_index` and the permuted image. -/
def partition (img : Nat → Nat) (off left right elt pivot_index : Nat) :
    Nat × (Nat → Nat) :=
  let pivot_value := byteAt img (off + pivot_index * 4 + elt)
  let img1 := swap_pixels img off pivot_index (right - 1)
  let st := iter (fun k st => partitionStep off elt pivot_value (left + k) st)
      (right - 1 - left) (left, false, img1)
  (st.1, swap_pixels st.2.2 off st.1 (right - 1))

/-- C++ `partition_by_median`: quickselect around `needed_center`.  `fuel`
dominates the recursion depth (each call shrinks `right - left`). -/
def partition_by_median (fuel : Nat) (img : Nat → Nat)
    (off left right com needed_center : Nat) : Nat → Nat :=
  match fuel with
  | 0 => img
  | fuel + 1 =>
    if left < right - 1 then
      let pivot0 := left + (right - left) / 2
      let p := partition img off left right com pivot0
      if needed_center < p.1 then
        partition_by_median fuel p.2 off left p.1 com needed_center
      else if p.1 < needed_center then
        partition_by_median fuel p.2 off (p.1 + 1) right com needed_center
      else p.2
    else img

/-- The `Palette` record: `bit_depth` plus the five 256-byte arrays.
Arrays are total functions; `u8` cells are read through `% 256`. -/
structure Palette where
  bit_depth : Nat
  r : Nat → Nat
  g : Nat → Nat
  b : Nat → Nat
  tree_split_elt : Nat → Nat
  tree_split : Nat → Nat

/-- C++ `Palette::split`: recursively build the balanced k-d tree, writing leaf
colors into `r`/`g`/`b` and split nodes into the tree arrays, reordering the
image in place.  `fuel` dominates the recursion depth (the element interval
halves each level, so `bit_depth + 2` suffices from the constructor). -/
def Palette.splitGo (fuel : Nat) (pal : Palette) (img : Nat → Nat)
    (off num_pixels first_elt last_elt split_elt split_dist tree_node : Nat)
    (build_for_dither : Bool) : Palette × (Nat → Nat) :=
  match fuel with
  | 0 => (pal, img)
  | fuel + 1 =>
    if last_elt ≤ first_elt ∨ num_pixels = 0 then (pal, img)
    else if last_elt = first_elt + 1 then
      if build_for_dither ∧ first_elt = 1 then
        let c := find_darkest_color img off num_pixels
        ({ pal with
            r := updN pal.r first_elt c.1
            g := updN pal.g first_elt c.2.1
            b := updN pal.b first_elt c.2.2 }, img)
      else if build_for_dither ∧ first_elt = 2 ^ pal.bit_depth - 1 then
        let c := find_lightest_color img off num_pixels
        ({ pal with
            r := updN pal.r first_elt c.1
            g := updN pal.g first_elt c.2.1
            b := updN pal.b first_elt c.2.2 }, img)
      else
        let c := find_subcube_average img off num_pixels
        ({ pal with
            r := updN pal.r first_elt c.1
            g := updN pal.g first_elt c.2.1
            b := updN pal.b first_elt c.2.2 }, img)
    else
      let rng := find_largest_range img off num_pixels
      let split_com : Nat :=
        if rng.1 > rng.2.2 ∧ rng.1 > rng.2.1 then 0 else if rng.2.2 > rng.2.1 then 2 else 1
      let sub_pixels_a := num_pixels * (split_elt - first_elt) / (last_elt - first_elt)
      let img1 := partition_by_median (num_pixels + 1) img off 0 num_pixels split_com sub_pixels_a
      let pal1 := { pal with
        tree_split_elt := updN pal.tree_split_elt tree_node split_com
        tree_split := updN pal.tree_split tree_node (byteAt img1 (off + sub_pixels_a * 4 + split_com)) }
      let resL := Palette.splitGo fuel pal1 img1 off sub_pixels_a first_elt split_elt
          (split_elt - split_dist) (split_dist / 2) (tree_node * 2) build_for_dither
      Palette.splitGo fuel resL.1 resL.2 (off + sub_pixels_a * 4) (num_pixels - sub_pixels_a)
          split_elt last_elt (split_elt + split_dist) (split_dist / 2) (tree_node * 2 + 1)
          build_for_dither

/-- C++ `pick_changed_pixels`: compact the pixels whose RGB differs from the
previous frame to the front of the buffer; returns their count and the
mutated buffer. -/
def pick_changed_pixels (last_frame img : Nat → Nat) (num_pixels : Nat) :
    Nat × (Nat → Nat) :=
  iter (fun i st =>
    let buf := st.2
    if byteAt last_frame (4 * i) ≠ byteAt buf (4 * i) ∨
        byteAt last_frame (4 * i + 1) ≠ byteAt buf (4 * i + 1) ∨
        byteAt last_frame (4 * i + 2) ≠ byteAt buf (4 * i + 2) then
      let r0 := byteAt buf (4 * i)
      let g0 := byteAt buf (4 * i + 1)
      let b0 := byteAt buf (4 * i + 2)
      (st.1 + 1, updN (updN (updN buf (4 * st.1) r0) (4 * st.1 + 1) g0) (4 * st.1 + 2) b0)
    else st) num_pixels (0, img)

/-- C++ `Palette::Palette`: train the k-d tree (on the changed pixels when a
previous frame is supplied), then force the transparency structure: node
`2^(bit_depth-1)` gets split axis 0 and split value 0, and entry 0 becomes
(0,0,0).  `init` is the indeterminate pre-constructor array contents. -/
def Palette.make (init : Palette) (last_frame : Option (Nat → Nat))
    (next_frame : Nat → Nat) (width height bit_depth : Nat)
    (build_for_dither : Bool) : Palette :=
  let np0 := width * height
  let pc := match last_frame with
    | some lf => pick_changed_pixels lf next_frame np0
    | none => (np0, next_frame)
  let last_elt := 2 ^ bit_depth
  let split_elt := last_elt / 2
  let split_dist := split_elt / 2
  let res := Palette.splitGo (bit_depth + 2) { init with bit_depth := bit_depth } pc.2 0 pc.1
      1 last_elt split_elt split_dist 1 build_for_dither
  let pal := res.1
  { pal with
    tree_split := updN pal.tree_split (2 ^ (bit_depth - 1)) 0
    tree_split_elt := updN pal.tree_split_elt (2 ^ (bit_depth - 1)) 0
    r := updN pal.r 0 0
    g := updN pal.g 0 0
    b := updN pal.b 0 0 }

/-- C++ `Palette::get_closest_pallete_color`: walk the heap-laid k-d tree from
`tree_root`, refining `(best_ind, best_diff)`.  `fuel` dominates the
recursion depth; every program call passes `bit_depth + 1`, enough to reach
any leaf from the root. -/
def Palette.get_closest_pallete_color (pal : Palette) (fuel : Nat) (r g b : Int)
    (best_ind best_diff : Int) (tree_root : Nat) : Int × Int :=
  match fuel with
  | 0 => (best_ind, best_diff)
  | fuel + 1 =>
    if 2 ^ pal.bit_depth - 1 < tree_root then
      let ind := tree_root - 2 ^ pal.bit_depth
      if ind = transparency_index then (best_ind, best_diff)
      else
        let r_err := r - (byteAt pal.r ind : Int)
        let g_err := g - (byteAt pal.g ind : Int)
        let b_err := b - (byteAt pal.b ind : Int)
        let diff := |r_err| + |g_err| + |b_err|
        if diff < best_diff then ((ind : Int), diff) else (best_ind, best_diff)
    else
      let e := byteAt pal.tree_split_elt tree_root
      let split_comp := if e = 0 then r else if e = 1 then g else b
      let split_pos : Int := (byteAt pal.tree_split tree_root : Int)
      if split_comp < split_pos then
        let resL := pal.get_closest_pallete_color fuel r g b best_ind best_diff (tree_root * 2)
        if split_pos - split_comp < resL.2 then
          pal.get_closest_pallete_color fuel r g b resL.1 resL.2 (tree_root * 2 + 1)
        else resL
      else
        let resR := pal.get_closest_pallete_color fuel r g b best_ind best_diff (tree_root * 2 + 1)
        if split_comp - split_pos < resR.2 then
          pal.get_closest_pallete_color fuel r g b resR.1 resR.2 (tree_root * 2)
        else resR

/-- The palettize branch of `threshold_image`: query the nearest palette
color with `best_ind = 1`, `best_diff = 1000000`, from `tree_root = 1`, and
write `(palette color, index)` into the output quad of pixel `i`. -/
def thresholdQuant (pal : Palette) (next_frame : Nat → Nat) (i : Nat)
    (out : Nat → Nat) : Nat → Nat :=
  let best := pal.get_closest_pallete_color (pal.bit_depth + 1)
      (byteAt next_frame (4 * i)) (byteAt next_frame (4 * i + 1))
      (byteAt next_frame (4 * i + 2)) 1 1000000 1
  let ind := best.1.toNat
  updN (updN (updN (updN out (4 * i) (byteAt pal.r ind)) (4 * i + 1) (byteAt pal.g ind))
      (4 * i + 2) (byteAt pal.b ind)) (4 * i + 3) (ind % 256)

/-- Loop body of `threshold_image` at pixel `i`. -/
def thresholdStep (pal : Palette) (last_frame : Option (Nat → Nat))
    (next_frame : Nat → Nat) (i : Nat) (out : Nat → Nat) : Nat → Nat :=
  match last_frame with
  | some lf =>
    if byteAt lf (4 * i) = byteAt next_frame (4 * i) ∧
        byteAt lf (4 * i + 1) = byteAt next_frame (4 * i + 1) ∧
        byteAt lf (4 * i + 2) = byteAt next_frame (4 * i + 2) then
      updN (updN (updN (updN out (4 * i) (byteAt lf (4 * i)))
          (4 * i + 1) (byteAt lf (4 * i + 1)))
          (4 * i + 2) (byteAt lf (4 * i + 2))) (4 * i + 3) transparency_index
    else thresholdQuant pal next_frame i out
  | none => thresholdQuant pal next_frame i out

/-- C++ `threshold_image`: per-pixel nearest-palette quantization with
transparency for pixels equal to the previous frame.  `out0` is the content
of the output buffer before the call. -/
def threshold_image (last_frame : Option (Nat → Nat)) (next_frame out0 : Nat → Nat)
    (width height : Nat) (pal : Palette) : Nat → Nat :=
  iter (thresholdStep pal last_frame next_frame) (width * height) out0

/-- One Floyd-Steinberg error write: `pix[c] += max(-pix[c], e)`. -/
def ditherProp1 (q : Nat → Int) (a : Nat) (e : Int) : Nat → Int :=
  updI q a (q a + max (-(q a)) e)

/-- Propagate the three channel errors to pixel `loc`, guarded by the
`loc < num_pixels` bound check of `dither_image`. -/
def ditherPropagate (q : Nat → Int) (num_pixels loc : Nat) (er eg eb : Int) :
    Nat → Int :=
  if loc < num_pixels then
    ditherProp1 (ditherProp1 (ditherProp1 q (4 * loc) er) (4 * loc + 1) eg) (4 * loc + 2) eb
  else q

/-- The linear indices of the four Floyd-Steinberg targets of the pixel at
`(y, x)`: `quantloc_7 = y*width + x + 1`, `quantloc_3 = y*width + width + x - 1`,
`quantloc_5 = y*width + width + x`, `quantloc_1 = y*width + width + x + 1`. -/
def quantloc7 (width y x : Nat) : Nat := y * width + x + 1

/-- C++ `quantloc_3`, the below-left target of `dither_image`. -/
def quantloc3 (width y x : Nat) : Nat := y * width + width + x - 1

/-- C++ `quantloc_5`, the below target of `dither_image`. -/
def quantloc5 (width y x : Nat) : Nat := y * width + width + x

/-- C++ `quantloc_1`, the below-right target of `dither_image`. -/
def quantloc1 (width y x : Nat) : Nat := y * width + width + x + 1

/-- The palettize-and-diffuse branch of `dither_image` for the pixel with
linear index `k = y*width + x` and rounded color `(rr, gg, bb)`.  Division
is C++ `int` division (`Int.tdiv`, truncation toward zero). -/
def ditherQuant (pal : Palette) (width num_pixels k : Nat) (rr gg bb : Int)
    (q : Nat → Int) : Nat → Int :=
  let best := pal.get_closest_pallete_color (pal.bit_depth + 1) rr gg bb
      (transparency_index : Int) 1000000 1
  let ind := best.1.toNat
  let r_err := q (4 * k) - (byteAt pal.r ind : Int) * 256
  let g_err := q (4 * k + 1) - (byteAt pal.g ind : Int) * 256
  let b_err := q (4 * k + 2) - (byteAt pal.b ind : Int) * 256
  let q1 := updI (updI (updI (updI q (4 * k) (byteAt pal.r ind))
      (4 * k + 1) (byteAt pal.g ind)) (4 * k + 2) (byteAt pal.b ind)) (4 * k + 3) best.1
  let q2 := ditherPropagate q1 num_pixels (k + 1)
      ((r_err * 7).tdiv 16) ((g_err * 7).tdiv 16) ((b_err * 7).tdiv 16)
  let q3 := ditherPropagate q2 num_pixels (k + width - 1)
      ((r_err * 3).tdiv 16) ((g_err * 3).tdiv 16) ((b_err * 3).tdiv 16)
  let q4 := ditherPropagate q3 num_pixels (k + width)
      ((r_err * 5).tdiv 16) ((g_err * 5).tdiv 16) ((b_err * 5).tdiv 16)
  ditherPropagate q4 num_pixels (k + width + 1)
      (r_err.tdiv 16) (g_err.tdiv 16) (b_err.tdiv 16)

/-- Loop body of `dither_image`.  The C++ code iterates `y` over rows and
`x` over columns and touches the pixel only through the linear index
`y*width + x`; `k` is that index, so `quantloc_7 = k + 1`,
`quantloc_3 = k + width - 1`, `quantloc_5 = k + width`,
`quantloc_1 = k + width + 1`. -/
def ditherPix (pal : Palette) (last_frame : Option (Nat → Nat))
    (width num_pixels k : Nat) (q : Nat → Int) : Nat → Int :=
  let rr := (q (4 * k) + 127).tdiv 256
  let gg := (q (4 * k + 1) + 127).tdiv 256
  let bb := (q (4 * k + 2) + 127).tdiv 256
  match last_frame with
  | some lf =>
    if (byteAt lf (4 * k) : Int) = rr ∧ (byteAt lf (4 * k + 1) : Int) = gg ∧
        (byteAt lf (4 * k + 2) : Int) = bb then
      updI (updI (updI (updI q (4 * k) rr) (4 * k + 1) gg) (4 * k + 2) bb)
          (4 * k + 3) (transparency_index : Int)
    else ditherQuant pal width num_pixels k rr gg bb q
  | none => ditherQuant pal width num_pixels k rr gg bb q

/-- C++ `dither_image`: Floyd-Steinberg dithering over an `i32` working buffer
holding `color * 256`; the result buffer gets the low byte of each cell
(`i32` to `u8` conversion) and `out0` elsewhere. -/
def dither_image (last_frame : Option (Nat → Nat)) (next_frame out0 : Nat → Nat)
    (width height : Nat) (pal : Palette) : Nat → Nat :=
  let num_pixels := width * height
  let q0 : Nat → Int := fun m => (byteAt next_frame m : Int) * 256
  let qF := iter (fun k q => ditherPix pal last_frame width num_pixels k q) num_pixels q0
  fun m => if m < num_pixels * 4 then (qF m % 256).toNat else out0 m

section BufferLemmas

@[simp]
theorem updN_same (f : Nat → Nat) (i v : Nat) : updN f i v i = v := by
  simp [updN]

theorem updN_other (f : Nat → Nat) (i v j : Nat) (h : j ≠ i) : updN f i v j = f j := by
  simp [updN, h]

@[simp]
theorem updI_same (f : Nat → Int) (i : Nat) (v : Int) : updI f i v i = v := by
  simp [updI]

theorem updI_other (f : Nat → Int) (i : Nat) (v : Int) (j : Nat) (h : j ≠ i) :
    updI f i v j = f j := by
  simp [updI, h]

/-- Loop-invariant rule for `iter`. -/
theorem iter_inv {α : Type} {f : Nat → α → α} {P : Nat → α → Prop} {a : α} (n : Nat)
    (h0 : P 0 a) (hstep : ∀ k b, k < n → P k b → P (k + 1) (f k b)) :
    P n (iter f n a) := by
  induction n with
  | zero => exact h0
  | succ m ih =>
    exact hstep m _ (Nat.lt_succ_self m)
      (ih fun k b hk hP => hstep k b (Nat.lt_succ_of_lt hk) hP)

end BufferLemmas

section SearchLemmas

/-- Invariant of the in/out `(best_ind, best_diff)` pair of
`get_closest_pallete_color`: the error never increases, and the pair is
either untouched or holds a non-transparent index below `2 ^ bit_depth`. -/
def SearchInv (bd : Nat) (bi bd0 : Int) (res : Int × Int) : Prop :=
  res.2 ≤ bd0 ∧ ((res.1 = bi ∧ res.2 = bd0) ∨ (1 ≤ res.1 ∧ res.1 ≤ (2 : Int) ^ bd - 1))

theorem searchInv_rfl (bd : Nat) (bi bd0 : Int) : SearchInv bd bi bd0 (bi, bd0) :=
  ⟨le_refl _, Or.inl ⟨rfl, rfl⟩⟩

theorem searchInv_trans {bd : Nat} {bi bd0 : Int} {p q : Int × Int}
    (h1 : SearchInv bd bi bd0 p) (h2 : SearchInv bd p.1 p.2 q) :
    SearchInv bd bi bd0 q := by
  obtain ⟨h1a, h1b⟩ := h1
  obtain ⟨h2a, h2b⟩ := h2
  refine ⟨le_trans h2a h1a, ?_⟩
  rcases h2b with ⟨hq1, hq2⟩ | hq
  · rcases h1b with ⟨hp1, hp2⟩ | hp
    · exact Or.inl ⟨hq1.trans hp1, hq2.trans hp2⟩
    · exact Or.inr ⟨hq1 ▸ hp.1, hq1 ▸ hp.2⟩
  · exact Or.inr hq

/-- Any call of `get_closest_pallete_color` on a heap node in range either
leaves `(best_ind, best_diff)` unchanged or replaces it with a
non-transparent index in `[1, 2^bit_depth - 1]` and a smaller error. -/
theorem get_closest_result (pal : Palette) (r g b : Int) :
    ∀ (fuel t : Nat) (bi bd0 : Int), t ≤ 2 ^ (pal.bit_depth + 1) - 1 →
      SearchInv pal.bit_depth bi bd0 (pal.get_closest_pallete_color fuel r g b bi bd0 t)
  | 0, t, bi, bd0, _ => by
      simpa only [Palette.get_closest_pallete_color] using searchInv_rfl pal.bit_depth bi bd0
  | (fuel + 1), t, bi, bd0, ht => by
      have hpow : 2 * 2 ^ pal.bit_depth = 2 ^ (pal.bit_depth + 1) := (pow_succ' 2 _).symm
      have hpos : 1 ≤ 2 ^ pal.bit_depth := Nat.one_le_two_pow
      simp only [Palette.get_closest_pallete_color]
      by_cases hleaf : 2 ^ pal.bit_depth - 1 < t
      · simp only [if_pos hleaf]
        by_cases hind : t - 2 ^ pal.bit_depth = transparency_index
        · simpa only [if_pos hind] using searchInv_rfl pal.bit_depth bi bd0
        · simp only [if_neg hind]
          by_cases hd : |r - (byteAt pal.r (t - 2 ^ pal.bit_depth) : Int)| +
              |g - (byteAt pal.g (t - 2 ^ pal.bit_depth) : Int)| +
              |b - (byteAt pal.b (t - 2 ^ pal.bit_depth) : Int)| < bd0
          · simp only [if_pos hd]
            refine ⟨le_of_lt hd, Or.inr ⟨?_, ?_⟩⟩
            · show (1 : Int) ≤ ((t - 2 ^ pal.bit_depth : Nat) : Int)
              have : 1 ≤ t - 2 ^ pal.bit_depth := by
                simp only [transparency_index] at hind; omega
              exact_mod_cast this
            · show ((t - 2 ^ pal.bit_depth : Nat) : Int) ≤ (2 : Int) ^ pal.bit_depth - 1
              have h1 : t - 2 ^ pal.bit_depth ≤ 2 ^ pal.bit_depth - 1 := by omega
              have h2 : ((t - 2 ^ pal.bit_depth : Nat) : Int) ≤ ((2 ^ pal.bit_depth - 1 : Nat) : Int) := by
                exact_mod_cast h1
              calc ((t - 2 ^ pal.bit_depth : Nat) : Int)
                  ≤ ((2 ^ pal.bit_depth - 1 : Nat) : Int) := h2
                _ = (2 : Int) ^ pal.bit_depth - 1 := by push_cast [hpos]; ring
          · simpa only [if_neg hd] using searchInv_rfl pal.bit_depth bi bd0
      · simp only [if_neg hleaf]
        have hbl : t * 2 ≤ 2 ^ (pal.bit_depth + 1) - 1 := by omega
        have hbr : t * 2 + 1 ≤ 2 ^ (pal.bit_depth + 1) - 1 := by omega
        by_cases hcmp : (if byteAt pal.tree_split_elt t = 0 then r
            else if byteAt pal.tree_split_elt t = 1 then g else b) <
            (byteAt pal.tree_split t : Int)
        · simp only [if_pos hcmp]
          have h1 := get_closest_result pal r g b fuel (t * 2) bi bd0 hbl
          by_cases hfar : (byteAt pal.tree_split t : Int) -
              (if byteAt pal.tree_split_elt t = 0 then r
               else if byteAt pal.tree_split_elt t = 1 then g else b) <
              (pal.get_closest_pallete_color fuel r g b bi bd0 (t * 2)).2
          · simp only [if_pos hfar]
            exact searchInv_trans h1 (get_closest_result pal r g b fuel (t * 2 + 1) _ _ hbr)
          · simpa only [if_neg hfar] using h1
        · simp only [if_neg hcmp]
          have h1 := get_closest_result pal r g b fuel (t * 2 + 1) bi bd0 hbr
          by_cases hfar : (if byteAt pal.tree_split_elt t = 0 then r
               else if byteAt pal.tree_split_elt t = 1 then g else b) -
              (byteAt pal.tree_split t : Int) <
              (pal.get_closest_pallete_color fuel r g b bi bd0 (t * 2 + 1)).2
          · simp only [if_pos hfar]
            exact searchInv_trans h1 (get_closest_result pal r g b fuel (t * 2) _ _ hbl)
          · simpa only [if_neg hfar] using h1

/-- Progress: starting anywhere except the transparency leaf itself, with
nonnegative query components and an initial error above `r + g + b + 765`
(which dominates the L1 distance to any byte-valued leaf color), the search
always ends on a palette index in `[1, 2^bit_depth - 1]`.  The key case is
the node `2^(bit_depth-1)`: its forced split (`axis 0, value 0`) sends the
unconditional first descent to the leaf of index 1, never to the
transparency leaf. -/
theorem get_closest_progress (pal : Palette) (r g b : Int)
    (hr0 : 0 ≤ r) (hg0 : 0 ≤ g) (hb0 : 0 ≤ b) (hbd : 1 ≤ pal.bit_depth)
    (hts : byteAt pal.tree_split (2 ^ (pal.bit_depth - 1)) = 0)
    (htse : byteAt pal.tree_split_elt (2 ^ (pal.bit_depth - 1)) = 0) :
    ∀ (fuel t : Nat) (bi bd0 : Int), 1 ≤ t → t ≤ 2 ^ (pal.bit_depth + 1) - 1 →
      t ≠ 2 ^ pal.bit_depth → 2 ^ (pal.bit_depth + 1) ≤ t * 2 ^ fuel →
      r + g + b + 765 < bd0 →
      1 ≤ (pal.get_closest_pallete_color fuel r g b bi bd0 t).1 ∧
      (pal.get_closest_pallete_color fuel r g b bi bd0 t).1 ≤ (2 : Int) ^ pal.bit_depth - 1 ∧
      (pal.get_closest_pallete_color fuel r g b bi bd0 t).2 ≤ r + g + b + 765
  | 0, t, bi, bd0, ht1, ht2, _, hfuel, _ => by
      exfalso; simp only [pow_zero, Nat.mul_one] at hfuel; omega
  | (fuel + 1), t, bi, bd0, ht1, ht2, htne, hfuel, hdin => by
      have hpow : 2 * 2 ^ pal.bit_depth = 2 ^ (pal.bit_depth + 1) := (pow_succ' 2 _).symm
      have hpos : 1 ≤ 2 ^ pal.bit_depth := Nat.one_le_two_pow
      have hhalf : 2 ^ (pal.bit_depth - 1) * 2 = 2 ^ pal.bit_depth := by
        have : pal.bit_depth - 1 + 1 = pal.bit_depth := by omega
        calc 2 ^ (pal.bit_depth - 1) * 2 = 2 ^ (pal.bit_depth - 1 + 1) := (pow_succ 2 _).symm
          _ = 2 ^ pal.bit_depth := by rw [this]
      simp only [Palette.get_closest_pallete_color]
      by_cases hleaf : 2 ^ pal.bit_depth - 1 < t
      · -- leaf case: a non-transparency leaf in range always wins against
        -- bd0 > r + g + b + 765
        simp only [if_pos hleaf]
        have hindne : ¬(t - 2 ^ pal.bit_depth = transparency_index) := by
          simp only [transparency_index]; omega
        simp only [if_neg hindne]
        have hbR : (byteAt pal.r (t - 2 ^ pal.bit_depth) : Int) ≤ 255 ∧
            (0 : Int) ≤ (byteAt pal.r (t - 2 ^ pal.bit_depth) : Int) := by
          constructor
          · exact_mod_cast Nat.le_of_lt_succ (Nat.mod_lt _ (by norm_num))
          · positivity
        have hbG : (byteAt pal.g (t - 2 ^ pal.bit_depth) : Int) ≤ 255 ∧
            (0 : Int) ≤ (byteAt pal.g (t - 2 ^ pal.bit_depth) : Int) := by
          constructor
          · exact_mod_cast Nat.le_of_lt_succ (Nat.mod_lt _ (by norm_num))
          · positivity
        have hbB : (byteAt pal.b (t - 2 ^ pal.bit_depth) : Int) ≤ 255 ∧
            (0 : Int) ≤ (byteAt pal.b (t - 2 ^ pal.bit_depth) : Int) := by
          constructor
          · exact_mod_cast Nat.le_of_lt_succ (Nat.mod_lt _ (by norm_num))
          · positivity
        have hdiff : |r - (byteAt pal.r (t - 2 ^ pal.bit_depth) : Int)| +
            |g - (byteAt pal.g (t - 2 ^ pal.bit_depth) : Int)| +
            |b - (byteAt pal.b (t - 2 ^ pal.bit_depth) : Int)| ≤ r + g + b + 765 := by
          have h1 : |r - (byteAt pal.r (t - 2 ^ pal.bit_depth) : Int)| ≤ r + 255 :=
            abs_le.mpr ⟨by omega, by omega⟩
          have h2 : |g - (byteAt pal.g (t - 2 ^ pal.bit_depth) : Int)| ≤ g + 255 :=
            abs_le.mpr ⟨by omega, by omega⟩
          have h3 : |b - (byteAt pal.b (t - 2 ^ pal.bit_depth) : Int)| ≤ b + 255 :=
            abs_le.mpr ⟨by omega, by omega⟩
          omega
        have hd : |r - (byteAt pal.r (t - 2 ^ pal.bit_depth) : Int)| +
            |g - (byteAt pal.g (t - 2 ^ pal.bit_depth) : Int)| +
            |b - (byteAt pal.b (t - 2 ^ pal.bit_depth) : Int)| < bd0 := by omega
        simp only [if_pos hd]
        refine ⟨?_, ?_, ?_⟩
        · show (1 : Int) ≤ ((t - 2 ^ pal.bit_depth : Nat) : Int)
          have : 1 ≤ t - 2 ^ pal.bit_depth := by omega
          exact_mod_cast this
        · show ((t - 2 ^ pal.bit_depth : Nat) : Int) ≤ (2 : Int) ^ pal.bit_depth - 1
          have h1 : t - 2 ^ pal.bit_depth ≤ 2 ^ pal.bit_depth - 1 := by omega
          have h2 : ((t - 2 ^ pal.bit_depth : Nat) : Int) ≤ ((2 ^ pal.bit_depth - 1 : Nat) : Int) := by
            exact_mod_cast h1
          calc ((t - 2 ^ pal.bit_depth : Nat) : Int)
              ≤ ((2 ^ pal.bit_depth - 1 : Nat) : Int) := h2
            _ = (2 : Int) ^ pal.bit_depth - 1 := by push_cast [hpos]; ring
        · exact hdiff
      · -- internal node
        simp only [if_neg hleaf]
        have htin : t ≤ 2 ^ pal.bit_depth - 1 := by omega
        have hfuelL : 2 ^ (pal.bit_depth + 1) ≤ t * 2 * 2 ^ fuel := by
          have : t * 2 * 2 ^ fuel = t * 2 ^ (fuel + 1) := by ring
          omega
        have hfuelR : 2 ^ (pal.bit_depth + 1) ≤ (t * 2 + 1) * 2 ^ fuel := by
          have h1 : t * 2 * 2 ^ fuel ≤ (t * 2 + 1) * 2 ^ fuel :=
            Nat.mul_le_mul_right _ (by omega)
          omega
        have hbl : t * 2 ≤ 2 ^ (pal.bit_depth + 1) - 1 := by omega
        have hbr : t * 2 + 1 ≤ 2 ^ (pal.bit_depth + 1) - 1 := by omega
        by_cases hspec : t = 2 ^ (pal.bit_depth - 1)
        · -- the forced transparency-shield node: axis 0, value 0, so r ≥ 0 goes right
          have he : byteAt pal.tree_split_elt t = 0 := hspec ▸ htse
          have hv : byteAt pal.tree_split t = 0 := hspec ▸ hts
          have hcmp : ¬((if byteAt pal.tree_split_elt t = 0 then r
              else if byteAt pal.tree_split_elt t = 1 then g else b) <
              (byteAt pal.tree_split t : Int)) := by
            simp only [he, hv, if_pos rfl]; push_cast; omega
          simp only [if_neg hcmp]
          have hne : t * 2 + 1 ≠ 2 ^ pal.bit_depth := by omega
          have hR := get_closest_progress pal r g b hr0 hg0 hb0 hbd hts htse
            fuel (t * 2 + 1) bi bd0 (by omega) hbr hne hfuelR hdin
          by_cases hfar : (if byteAt pal.tree_split_elt t = 0 then r
               else if byteAt pal.tree_split_elt t = 1 then g else b) -
              (byteAt pal.tree_split t : Int) <
              (pal.get_closest_pallete_color fuel r g b bi bd0 (t * 2 + 1)).2
          · simp only [if_pos hfar]
            have hA := get_closest_result pal r g b fuel (t * 2)
              (pal.get_closest_pallete_color fuel r g b bi bd0 (t * 2 + 1)).1
              (pal.get_closest_pallete_color fuel r g b bi bd0 (t * 2 + 1)).2 hbl
            obtain ⟨hA2, hAd⟩ := hA
            rcases hAd with ⟨he1, he2⟩ | hval
            · exact ⟨by rw [he1]; exact hR.1, by rw [he1]; exact hR.2.1,
                by rw [he2]; exact hR.2.2⟩
            · exact ⟨hval.1, hval.2, le_trans hA2 hR.2.2⟩
          · simpa only [if_neg hfar] using hR
        · -- any other internal node: neither child is the transparency leaf
          have h2t : t * 2 ≠ 2 ^ pal.bit_depth := by
            intro hcontra; apply hspec; omega
          have h2t1 : t * 2 + 1 ≠ 2 ^ pal.bit_depth := by omega
          by_cases hcmp : (if byteAt pal.tree_split_elt t = 0 then r
              else if byteAt pal.tree_split_elt t = 1 then g else b) <
              (byteAt pal.tree_split t : Int)
          · simp only [if_pos hcmp]
            have hL := get_closest_progress pal r g b hr0 hg0 hb0 hbd hts htse
              fuel (t * 2) bi bd0 (by omega) hbl h2t hfuelL hdin
            by_cases hfar : (byteAt pal.tree_split t : Int) -
                (if byteAt pal.tree_split_elt t = 0 then r
                 else if byteAt pal.tree_split_elt t = 1 then g else b) <
                (pal.get_closest_pallete_color fuel r g b bi bd0 (t * 2)).2
            · simp only [if_pos hfar]
              have hA := get_closest_result pal r g b fuel (t * 2 + 1)
                (pal.get_closest_pallete_color fuel r g b bi bd0 (t * 2)).1
                (pal.get_closest_pallete_color fuel r g b bi bd0 (t * 2)).2 hbr
              obtain ⟨hA2, hAd⟩ := hA
              rcases hAd with ⟨he1, he2⟩ | hval
              · exact ⟨by rw [he1]; exact hL.1, by rw [he1]; exact hL.2.1,
                  by rw [he2]; exact hL.2.2⟩
              · exact ⟨hval.1, hval.2, le_trans hA2 hL.2.2⟩
            · simpa only [if_neg hfar] using hL
          · simp only [if_neg hcmp]
            have hR := get_closest_progress pal r g b hr0 hg0 hb0 hbd hts htse
              fuel (t * 2 + 1) bi bd0 (by omega) hbr h2t1 hfuelR hdin
            by_cases hfar : (if byteAt pal.tree_split_elt t = 0 then r
                 else if byteAt pal.tree_split_elt t = 1 then g else b) -
                (byteAt pal.tree_split t : Int) <
                (pal.get_closest_pallete_color fuel r g b bi bd0 (t * 2 + 1)).2
            · simp only [if_pos hfar]
              have hA := get_closest_result pal r g b fuel (t * 2)
                (pal.get_closest_pallete_color fuel r g b bi bd0 (t * 2 + 1)).1
                (pal.get_closest_pallete_color fuel r g b bi bd0 (t * 2 + 1)).2 hbl
              obtain ⟨hA2, hAd⟩ := hA
              rcases hAd with ⟨he1, he2⟩ | hval
              · exact ⟨by rw [he1]; exact hR.1, by rw [he1]; exact hR.2.1,
                  by rw [he2]; exact hR.2.2⟩
              · exact ⟨hval.1, hval.2, le_trans hA2 hR.2.2⟩
            · simpa only [if_neg hfar] using hR

end SearchLemmas

section PaletteLemmas

/-- C++ `Palette::split` never touches the `bit_depth` field. -/
theorem splitGo_bit_depth :
    ∀ (fuel : Nat) (pal : Palette) (img : Nat → Nat) (off np fe l s d tn : Nat) (dith : Bool),
      ((Palette.splitGo fuel pal img off np fe l s d tn dith).1).bit_depth = pal.bit_depth
  | 0, pal, img, off, np, fe, l, s, d, tn, dith => rfl
  | (fuel + 1), pal, img, off, np, fe, l, s, d, tn, dith => by
      simp only [Palette.splitGo]
      split_ifs <;> simp [splitGo_bit_depth fuel]

/-- The finalization facts of `Palette::Palette`: after `split` returns, the
constructor overwrites node `2^(bit_depth-1)` with split axis 0 and split
value 0 and entry 0 with (0,0,0), whatever `split` did. -/
theorem palette_make_facts (init : Palette) (last_frame : Option (Nat → Nat))
    (next_frame : Nat → Nat) (width height bit_depth : Nat) (dith : Bool) :
    (Palette.make init last_frame next_frame width height bit_depth dith).bit_depth = bit_depth ∧
    byteAt (Palette.make init last_frame next_frame width height bit_depth dith).tree_split
      (2 ^ (bit_depth - 1)) = 0 ∧
    byteAt (Palette.make init last_frame next_frame width height bit_depth dith).tree_split_elt
      (2 ^ (bit_depth - 1)) = 0 ∧
    byteAt (Palette.make init last_frame next_frame width height bit_depth dith).r 0 = 0 ∧
    byteAt (Palette.make init last_frame next_frame width height bit_depth dith).g 0 = 0 ∧
    byteAt (Palette.make init last_frame next_frame width height bit_depth dith).b 0 = 0 := by
  unfold Palette.make
  refine ⟨?_, ?_, ?_, ?_, ?_, ?_⟩ <;> simp [splitGo_bit_depth, byteAt, updN]

end PaletteLemmas

section QuantizerLemmas

theorem updN4_other (out : Nat → Nat) (a v0 v1 v2 v3 m : Nat)
    (h0 : m ≠ a) (h1 : m ≠ a + 1) (h2 : m ≠ a + 2) (h3 : m ≠ a + 3) :
    updN (updN (updN (updN out a v0) (a + 1) v1) (a + 2) v2) (a + 3) v3 m = out m := by
  simp [updN, h0, h1, h2, h3]

theorem updN4_read (out : Nat → Nat) (a v0 v1 v2 v3 : Nat) :
    updN (updN (updN (updN out a v0) (a + 1) v1) (a + 2) v2) (a + 3) v3 a = v0 ∧
    updN (updN (updN (updN out a v0) (a + 1) v1) (a + 2) v2) (a + 3) v3 (a + 1) = v1 ∧
    updN (updN (updN (updN out a v0) (a + 1) v1) (a + 2) v2) (a + 3) v3 (a + 2) = v2 ∧
    updN (updN (updN (updN out a v0) (a + 1) v1) (a + 2) v2) (a + 3) v3 (a + 3) = v3 := by
  refine ⟨?_, ?_, ?_, ?_⟩ <;> simp [updN]

/-- The quad written by `thresholdStep` does not depend on the previous
contents of the output buffer. -/
theorem thresholdStep_indep (pal : Palette) (last_frame : Option (Nat → Nat))
    (next_frame : Nat → Nat) (i : Nat) (out out' : Nat → Nat) (c : Nat) (hc : c < 4) :
    thresholdStep pal last_frame next_frame i out (4 * i + c) =
    thresholdStep pal last_frame next_frame i out' (4 * i + c) := by
  unfold thresholdStep thresholdQuant
  have hread : ∀ (o o' : Nat → Nat) (v0 v1 v2 v3 : Nat),
      updN (updN (updN (updN o (4 * i) v0) (4 * i + 1) v1) (4 * i + 2) v2) (4 * i + 3) v3
        (4 * i + c) =
      updN (updN (updN (updN o' (4 * i) v0) (4 * i + 1) v1) (4 * i + 2) v2) (4 * i + 3) v3
        (4 * i + c) := by
    intro o o' v0 v1 v2 v3
    interval_cases c
    · simp only [Nat.add_zero] at *
      rw [(updN4_read o (4 * i) v0 v1 v2 v3).1, (updN4_read o' (4 * i) v0 v1 v2 v3).1]
    · rw [(updN4_read o (4 * i) v0 v1 v2 v3).2.1, (updN4_read o' (4 * i) v0 v1 v2 v3).2.1]
    · rw [(updN4_read o (4 * i) v0 v1 v2 v3).2.2.1, (updN4_read o' (4 * i) v0 v1 v2 v3).2.2.1]
    · rw [(updN4_read o (4 * i) v0 v1 v2 v3).2.2.2, (updN4_read o' (4 * i) v0 v1 v2 v3).2.2.2]
  cases last_frame with
  | none => exact hread out out' _ _ _ _
  | some lf =>
    by_cases hm : byteAt lf (4 * i) = byteAt next_frame (4 * i) ∧
        byteAt lf (4 * i + 1) = byteAt next_frame (4 * i + 1) ∧
        byteAt lf (4 * i + 2) = byteAt next_frame (4 * i + 2)
    · simp only [if_pos hm]; exact hread out out' _ _ _ _
    · simp only [if_neg hm]; exact hread out out' _ _ _ _

/-- C++ `thresholdStep` only writes the quad of its own pixel. -/
theorem thresholdStep_other (pal : Palette) (last_frame : Option (Nat → Nat))
    (next_frame : Nat → Nat) (i : Nat) (out : Nat → Nat) (m : Nat)
    (hm : m < 4 * i ∨ 4 * i + 3 < m) :
    thresholdStep pal last_frame next_frame i out m = out m := by
  have h0 : m ≠ 4 * i := by omega
  have h1 : m ≠ 4 * i + 1 := by omega
  have h2 : m ≠ 4 * i + 2 := by omega
  have h3 : m ≠ 4 * i + 3 := by omega
  unfold thresholdStep thresholdQuant
  cases last_frame with
  | none => exact updN4_other _ _ _ _ _ _ _ h0 h1 h2 h3
  | some lf =>
    by_cases hc : byteAt lf (4 * i) = byteAt next_frame (4 * i) ∧
        byteAt lf (4 * i + 1) = byteAt next_frame (4 * i + 1) ∧
        byteAt lf (4 * i + 2) = byteAt next_frame (4 * i + 2)
    · simp only [if_pos hc]; exact updN4_other _ _ _ _ _ _ _ h0 h1 h2 h3
    · simp only [if_neg hc]; exact updN4_other _ _ _ _ _ _ _ h0 h1 h2 h3

/-- Pointwise reading of `threshold_image`: the quad of pixel `i` is what
`thresholdStep` wrote for pixel `i` and no later step touched it. -/
theorem threshold_image_pix (pal : Palette) (last_frame : Option (Nat → Nat))
    (next_frame out0 : Nat → Nat) (width height : Nat) (i : Nat)
    (hi : i < width * height) (c : Nat) (hc : c < 4) :
    threshold_image last_frame next_frame out0 width height pal (4 * i + c) =
    thresholdStep pal last_frame next_frame i out0 (4 * i + c) := by
  unfold threshold_image
  have key := iter_inv (f := thresholdStep pal last_frame next_frame)
    (P := fun k out => ∀ j, j < k → ∀ c', c' < 4 →
      out (4 * j + c') = thresholdStep pal last_frame next_frame j out0 (4 * j + c'))
    (a := out0) (width * height) (by intro j hj; omega)
    (by
      intro k b hk hP j hj c' hc'
      by_cases hjk : j = k
      · subst hjk
        exact thresholdStep_indep pal last_frame next_frame j b out0 c' hc'
      · have hlt : j < k := by omega
        rw [thresholdStep_other pal last_frame next_frame k b (4 * j + c') (by omega)]
        exact hP j hlt c' hc')
  exact key i hi c hc

/-- The palette index chosen by the threshold query fits in a byte when
`bit_depth ≤ 8`. -/
theorem threshold_index_le (pal : Palette) (r g b : Int) (hbd : pal.bit_depth ≤ 8) :
    (pal.get_closest_pallete_color (pal.bit_depth + 1) r g b 1 1000000 1).1.toNat ≤ 255 := by
  have hpos : 1 ≤ 2 ^ (pal.bit_depth + 1) := Nat.one_le_two_pow
  have hres := get_closest_result pal r g b (pal.bit_depth + 1) 1 1 1000000 (by omega)
  have hpow : (2 : Int) ^ pal.bit_depth ≤ 2 ^ 8 := by
    exact pow_le_pow_right₀ (by norm_num) hbd
  rcases hres.2 with ⟨h1, _⟩ | ⟨_, h2⟩
  · rw [h1]; norm_num
  · have : (pal.get_closest_pallete_color (pal.bit_depth + 1) r g b 1 1000000 1).1 ≤ 255 := by
      have : (2 : Int) ^ 8 = 256 := by norm_num
      omega
    omega

/-- The quad written by the palettize branch of `threshold_image`. -/
theorem thresholdQuant_read (pal : Palette) (next_frame : Nat → Nat) (i : Nat)
    (out : Nat → Nat) (hbd : pal.bit_depth ≤ 8) :
    thresholdQuant pal next_frame i out (4 * i) =
      byteAt pal.r (pal.get_closest_pallete_color (pal.bit_depth + 1)
        (byteAt next_frame (4 * i)) (byteAt next_frame (4 * i + 1))
        (byteAt next_frame (4 * i + 2)) 1 1000000 1).1.toNat ∧
    thresholdQuant pal next_frame i out (4 * i + 1) =
      byteAt pal.g (pal.get_closest_pallete_color (pal.bit_depth + 1)
        (byteAt next_frame (4 * i)) (byteAt next_frame (4 * i + 1))
        (byteAt next_frame (4 * i + 2)) 1 1000000 1).1.toNat ∧
    thresholdQuant pal next_frame i out (4 * i + 2) =
      byteAt pal.b (pal.get_closest_pallete_color (pal.bit_depth + 1)
        (byteAt next_frame (4 * i)) (byteAt next_frame (4 * i + 1))
        (byteAt next_frame (4 * i + 2)) 1 1000000 1).1.toNat ∧
    thresholdQuant pal next_frame i out (4 * i + 3) =
      (pal.get_closest_pallete_color (pal.bit_depth + 1)
        (byteAt next_frame (4 * i)) (byteAt next_frame (4 * i + 1))
        (byteAt next_frame (4 * i + 2)) 1 1000000 1).1.toNat := by
  have hle := threshold_index_le pal (byteAt next_frame (4 * i))
    (byteAt next_frame (4 * i + 1)) (byteAt next_frame (4 * i + 2)) hbd
  have hmod : (pal.get_closest_pallete_color (pal.bit_depth + 1)
      (byteAt next_frame (4 * i)) (byteAt next_frame (4 * i + 1))
      (byteAt next_frame (4 * i + 2)) 1 1000000 1).1.toNat % 256 =
      (pal.get_closest_pallete_color (pal.bit_depth + 1)
      (byteAt next_frame (4 * i)) (byteAt next_frame (4 * i + 1))
      (byteAt next_frame (4 * i + 2)) 1 1000000 1).1.toNat := Nat.mod_eq_of_lt (by omega)
  unfold thresholdQuant
  refine ⟨?_, ?_, ?_, ?_⟩
  · exact (updN4_read out (4 * i) _ _ _ _).1
  · exact (updN4_read out (4 * i) _ _ _ _).2.1
  · exact (updN4_read out (4 * i) _ _ _ _).2.2.1
  · rw [(updN4_read out (4 * i) _ _ _ _).2.2.2]; exact hmod

/-- **C1** (threshold quantizer postcondition): for every frame quantized
with dither off and every pixel `i` in raster order, if a previous frame
exists and matches the input exactly on RGB at `i`, the output quad is the
previous frame's RGB with the transparency index 0 in the fourth channel;
otherwise it is `(palette.r[best_ind], palette.g[best_ind],
palette.b[best_ind], best_ind)` where `best_ind` is the result of the
nearest-color query started at the tree root with `best_ind = 1` and
`best_diff = 1000000`. -/
theorem C1_threshold_quantizer_postcondition
    (pal : Palette) (last_frame : Option (Nat → Nat)) (next_frame out0 : Nat → Nat)
    (width height : Nat) (hbd : pal.bit_depth ≤ 8) (i : Nat) (hi : i < width * height) :
    (∀ lf, last_frame = some lf →
      ((byteAt lf (4 * i) = byteAt next_frame (4 * i) ∧
        byteAt lf (4 * i + 1) = byteAt next_frame (4 * i + 1) ∧
        byteAt lf (4 * i + 2) = byteAt next_frame (4 * i + 2)) →
        (threshold_image last_frame next_frame out0 width height pal (4 * i) = byteAt lf (4 * i) ∧
         threshold_image last_frame next_frame out0 width height pal (4 * i + 1) = byteAt lf (4 * i + 1) ∧
         threshold_image last_frame next_frame out0 width height pal (4 * i + 2) = byteAt lf (4 * i + 2) ∧
         threshold_image last_frame next_frame out0 width height pal (4 * i + 3) = transparency_index)) ∧
      (¬(byteAt lf (4 * i) = byteAt next_frame (4 * i) ∧
         byteAt lf (4 * i + 1) = byteAt next_frame (4 * i + 1) ∧
         byteAt lf (4 * i + 2) = byteAt next_frame (4 * i + 2)) →
        (threshold_image last_frame next_frame out0 width height pal (4 * i) =
          byteAt pal.r (pal.get_closest_pallete_color (pal.bit_depth + 1)
            (byteAt next_frame (4 * i)) (byteAt next_frame (4 * i + 1))
            (byteAt next_frame (4 * i + 2)) 1 1000000 1).1.toNat ∧
         threshold_image last_frame next_frame out0 width height pal (4 * i + 1) =
          byteAt pal.g (pal.get_closest_pallete_color (pal.bit_depth + 1)
            (byteAt next_frame (4 * i)) (byteAt next_frame (4 * i + 1))
            (byteAt next_frame (4 * i + 2)) 1 1000000 1).1.toNat ∧
         threshold_image last_frame next_frame out0 width height pal (4 * i + 2) =
          byteAt pal.b (pal.get_closest_pallete_color (pal.bit_depth + 1)
            (byteAt next_frame (4 * i)) (byteAt next_frame (4 * i + 1))
            (byteAt next_frame (4 * i + 2)) 1 1000000 1).1.toNat ∧
         threshold_image last_frame next_frame out0 width height pal (4 * i + 3) =
          (pal.get_closest_pallete_color (pal.bit_depth + 1)
            (byteAt next_frame (4 * i)) (byteAt next_frame (4 * i + 1))
            (byteAt next_frame (4 * i + 2)) 1 1000000 1).1.toNat))) ∧
    (last_frame = none →
      (threshold_image last_frame next_frame out0 width height pal (4 * i) =
        byteAt pal.r (pal.get_closest_pallete_color (pal.bit_depth + 1)
          (byteAt next_frame (4 * i)) (byteAt next_frame (4 * i + 1))
          (byteAt next_frame (4 * i + 2)) 1 1000000 1).1.toNat ∧
       threshold_image last_frame next_frame out0 width height pal (4 * i + 1) =
        byteAt pal.g (pal.get_closest_pallete_color (pal.bit_depth + 1)
          (byteAt next_frame (4 * i)) (byteAt next_frame (4 * i + 1))
          (byteAt next_frame (4 * i + 2)) 1 1000000 1).1.toNat ∧
       threshold_image last_frame next_frame out0 width height pal (4 * i + 2) =
        byteAt pal.b (pal.get_closest_pallete_color (pal.bit_depth + 1)
          (byteAt next_frame (4 * i)) (byteAt next_frame (4 * i + 1))
          (byteAt next_frame (4 * i + 2)) 1 1000000 1).1.toNat ∧
       threshold_image last_frame next_frame out0 width height pal (4 * i + 3) =
        (pal.get_closest_pallete_color (pal.bit_depth + 1)
          (byteAt next_frame (4 * i)) (byteAt next_frame (4 * i + 1))
          (byteAt next_frame (4 * i + 2)) 1 1000000 1).1.toNat)) := by
  have hpix := fun c hc =>
    threshold_image_pix pal last_frame next_frame out0 width height i hi c hc
  have h0 := hpix 0 (by norm_num)
  have h1 := hpix 1 (by norm_num)
  have h2 := hpix 2 (by norm_num)
  have h3 := hpix 3 (by norm_num)
  simp only [Nat.add_zero] at h0
  constructor
  · intro lf hlf
    subst hlf
    constructor
    · intro hmatch
      rw [h0, h1, h2, h3]
      unfold thresholdStep
      simp only [if_pos hmatch]
      exact updN4_read out0 (4 * i) _ _ _ _
    · intro hmatch
      rw [h0, h1, h2, h3]
      unfold thresholdStep
      simp only [if_neg hmatch]
      exact thresholdQuant_read pal next_frame i out0 hbd
  · intro hnone
    subst hnone
    rw [h0, h1, h2, h3]
    exact thresholdQuant_read pal next_frame i out0 hbd

/-- Witness for C1: a concrete 1×1 frame in which no previous frame exists
and the query picks palette index 1. -/
theorem C1_threshold_quantizer_postcondition_witness :
    (⟨1, fun _ => 7, fun _ => 8, fun _ => 9, fun _ => 0, fun _ => 0⟩ : Palette).bit_depth ≤ 8 ∧
    (0 : Nat) < 1 * 1 ∧
    (threshold_image none (fun _ => 3) (fun _ => 0) 1 1
      ⟨1, fun _ => 7, fun _ => 8, fun _ => 9, fun _ => 0, fun _ => 0⟩ 3 = 1) := by
  refine ⟨by norm_num, by norm_num, ?_⟩
  have h := (C1_threshold_quantizer_postcondition
    ⟨1, fun _ => 7, fun _ => 8, fun _ => 9, fun _ => 0, fun _ => 0⟩
    none (fun _ => 3) (fun _ => 0) 1 1 (by norm_num) 0 (by norm_num)).2 rfl
  have h3 := h.2.2.2
  simp only [Nat.mul_zero, Nat.add_zero, Nat.zero_add] at h3 ⊢
  rw [show (3 : Nat) = 4 * 0 + 3 by norm_num, h3]
  decide

end QuantizerLemmas

section C2Section

/-- **C2 amended** (transparency-slot exclusion invariant): every palette
built by the constructor (any `bit_depth ∈ [1,8]`, any frames, any
indeterminate initial array contents) has entry 0 equal to (0,0,0) and holds
split axis 0 and split value 0 at heap node `2^(bit_depth-1)`; and every
nearest-color query on it from the root `tree_root = 1` with initial
`best_diff = 1000000` and initial `best_ind` 0 or 1 whose nonnegative
components satisfy `r + g + b + 765 < 1000000` returns an index in
`[1, 2^bit_depth - 1]` — the transparency slot 0 is not returned.  The bound
covers the byte range and ordinary dither overshoot, but not unboundedly
error-inflated dither components: without it the query can return 0 (see the
counterexample, where components of 400000 leave every real leaf's L1
distance at or above `best_diff` and the initial `best_ind = 0` survives). -/
theorem C2_transparency_slot_exclusion
    (init : Palette) (last_frame : Option (Nat → Nat)) (next_frame : Nat → Nat)
    (width height bit_depth : Nat) (build_for_dither : Bool)
    (hbd1 : 1 ≤ bit_depth) (hbd8 : bit_depth ≤ 8)
    (r g b : Int) (hr0 : 0 ≤ r) (hg0 : 0 ≤ g) (hb0 : 0 ≤ b)
    (hsum : r + g + b + 765 < 1000000) (bi : Int) (hbi : bi = 0 ∨ bi = 1) :
    (byteAt (Palette.make init last_frame next_frame width height bit_depth build_for_dither).r 0 = 0 ∧
     byteAt (Palette.make init last_frame next_frame width height bit_depth build_for_dither).g 0 = 0 ∧
     byteAt (Palette.make init last_frame next_frame width height bit_depth build_for_dither).b 0 = 0) ∧
    (byteAt (Palette.make init last_frame next_frame width height bit_depth build_for_dither).tree_split_elt
      (2 ^ (bit_depth - 1)) = 0 ∧
     byteAt (Palette.make init last_frame next_frame width height bit_depth build_for_dither).tree_split
      (2 ^ (bit_depth - 1)) = 0) ∧
    (1 ≤ ((Palette.make init last_frame next_frame width height bit_depth build_for_dither).get_closest_pallete_color
        (bit_depth + 1) r g b bi 1000000 1).1 ∧
     ((Palette.make init last_frame next_frame width height bit_depth build_for_dither).get_closest_pallete_color
        (bit_depth + 1) r g b bi 1000000 1).1 ≤ (2 : Int) ^ bit_depth - 1) := by
  obtain ⟨hfbd, hfts, hftse, hfr, hfg, hfb⟩ :=
    palette_make_facts init last_frame next_frame width height bit_depth build_for_dither
  refine ⟨⟨hfr, hfg, hfb⟩, ⟨hftse, hfts⟩, ?_⟩
  have hbd1' : 1 ≤ (Palette.make init last_frame next_frame width height bit_depth build_for_dither).bit_depth := by
    rw [hfbd]; exact hbd1
  have hts' : byteAt (Palette.make init last_frame next_frame width height bit_depth build_for_dither).tree_split
      (2 ^ ((Palette.make init last_frame next_frame width height bit_depth build_for_dither).bit_depth - 1)) = 0 := by
    rw [hfbd]; exact hfts
  have htse' : byteAt (Palette.make init last_frame next_frame width height bit_depth build_for_dither).tree_split_elt
      (2 ^ ((Palette.make init last_frame next_frame width height bit_depth build_for_dither).bit_depth - 1)) = 0 := by
    rw [hfbd]; exact hftse
  have hprog := get_closest_progress
    (Palette.make init last_frame next_frame width height bit_depth build_for_dither)
    r g b hr0 hg0 hb0 hbd1' hts' htse'
    (bit_depth + 1) 1 bi 1000000
    (le_refl 1)
    (by
      have : 1 ≤ 2 ^ ((Palette.make init last_frame next_frame width height bit_depth build_for_dither).bit_depth + 1) :=
        Nat.one_le_two_pow
      omega)
    (by
      rw [hfbd]
      have : 2 ≤ 2 ^ bit_depth := by
        calc 2 = 2 ^ 1 := (pow_one 2).symm
        _ ≤ 2 ^ bit_depth := Nat.pow_le_pow_right (by norm_num) hbd1
      omega)
    (by rw [hfbd]; omega)
    (by omega)
  rw [hfbd] at hprog
  exact ⟨hprog.1, hprog.2.1⟩

/-- Witness for C2: a concrete all-black 1×1 frame, `bit_depth = 1`,
zero-initialized arrays, query (10,20,30) with `best_ind` starting at 0. -/
theorem C2_transparency_slot_exclusion_witness :
    1 ≤ ((Palette.make ⟨0, fun _ => 0, fun _ => 0, fun _ => 0, fun _ => 0, fun _ => 0⟩
        none (fun _ => 0) 1 1 1 false).get_closest_pallete_color
        (1 + 1) 10 20 30 0 1000000 1).1 := by
  have h := C2_transparency_slot_exclusion
    ⟨0, fun _ => 0, fun _ => 0, fun _ => 0, fun _ => 0, fun _ => 0⟩
    none (fun _ => 0) 1 1 1 false (by norm_num) (by norm_num)
    10 20 30 (by norm_num) (by norm_num) (by norm_num) (by norm_num)
    0 (Or.inl rfl)
  exact h.2.2.1

/-- Counterexample for the original C2: on the dither path the query
components are error-diffused and unbounded; with components 400000 on the
constructor-built `bit_depth = 1` dither palette, every real leaf's L1
distance is at least `best_diff = 1000000`, so no update happens and the
query returns the initial `best_ind = 0` — the transparency slot. -/
theorem C2_transparency_slot_exclusion_counterexample :
    ((Palette.make ⟨0, fun _ => 0, fun _ => 0, fun _ => 0, fun _ => 0, fun _ => 0⟩
        none (fun _ => 0) 1 1 1 true).get_closest_pallete_color
        (1 + 1) 400000 400000 400000 0 1000000 1).1 = 0 := by decide

end C2Section

section DitherLemmas

theorem ditherProp1_read (q : Nat → Int) (a : Nat) (e : Int) :
    ditherProp1 q a e a = q a + max (-(q a)) e := by
  simp [ditherProp1]

theorem ditherProp1_other (q : Nat → Int) (a : Nat) (e : Int) (m : Nat) (h : m ≠ a) :
    ditherProp1 q a e m = q m := by
  simp [ditherProp1, updI, h]

/-- The guarded error write changes each color channel of pixel `loc` by
exactly `max(-channel, share)` when `loc` passes the pixel-count bound
check. -/
theorem ditherPropagate_read (q : Nat → Int) (n loc : Nat) (er eg eb : Int)
    (hl : loc < n) :
    ditherPropagate q n loc er eg eb (4 * loc) = q (4 * loc) + max (-(q (4 * loc))) er ∧
    ditherPropagate q n loc er eg eb (4 * loc + 1) = q (4 * loc + 1) + max (-(q (4 * loc + 1))) eg ∧
    ditherPropagate q n loc er eg eb (4 * loc + 2) = q (4 * loc + 2) + max (-(q (4 * loc + 2))) eb := by
  unfold ditherPropagate
  rw [if_pos hl]
  refine ⟨?_, ?_, ?_⟩
  · rw [ditherProp1_other _ _ _ _ (by omega), ditherProp1_other _ _ _ _ (by omega),
      ditherProp1_read]
  · rw [ditherProp1_other _ _ _ _ (by omega), ditherProp1_read,
      ditherProp1_other _ _ _ _ (by omega)]
  · rw [ditherProp1_read, ditherProp1_other _ _ _ _ (by omega),
      ditherProp1_other _ _ _ _ (by omega)]

theorem ditherPropagate_other (q : Nat → Int) (n loc : Nat) (er eg eb : Int) (m : Nat)
    (h0 : m ≠ 4 * loc) (h1 : m ≠ 4 * loc + 1) (h2 : m ≠ 4 * loc + 2) :
    ditherPropagate q n loc er eg eb m = q m := by
  unfold ditherPropagate
  by_cases hl : loc < n
  · rw [if_pos hl, ditherProp1_other _ _ _ _ h2, ditherProp1_other _ _ _ _ h1,
      ditherProp1_other _ _ _ _ h0]
  · rw [if_neg hl]

/-- A target beyond `num_pixels` is silently skipped. -/
theorem ditherPropagate_skip (q : Nat → Int) (n loc : Nat) (er eg eb : Int)
    (h : ¬loc < n) : ditherPropagate q n loc er eg eb = q := by
  simp [ditherPropagate, h]

theorem ditherProp1_nonneg (q : Nat → Int) (a : Nat) (e : Int)
    (hq : ∀ m, 0 ≤ q m) : ∀ m, 0 ≤ ditherProp1 q a e m := by
  intro m
  by_cases hm : m = a
  · subst hm
    rw [ditherProp1_read]
    have h1 := le_max_left (-(q m)) e
    omega
  · rw [ditherProp1_other _ _ _ _ hm]; exact hq m

theorem ditherPropagate_nonneg (q : Nat → Int) (n loc : Nat) (er eg eb : Int)
    (hq : ∀ m, 0 ≤ q m) : ∀ m, 0 ≤ ditherPropagate q n loc er eg eb m := by
  intro m
  unfold ditherPropagate
  by_cases hl : loc < n
  · rw [if_pos hl]
    exact ditherProp1_nonneg _ _ _ (ditherProp1_nonneg _ _ _ (ditherProp1_nonneg _ _ _ hq)) m
  · rw [if_neg hl]; exact hq m

theorem updI4_nonneg (q : Nat → Int) (a : Nat) (v0 v1 v2 v3 : Int)
    (hq : ∀ m, 0 ≤ q m) (h0 : 0 ≤ v0) (h1 : 0 ≤ v1) (h2 : 0 ≤ v2) (h3 : 0 ≤ v3) :
    ∀ m, 0 ≤ updI (updI (updI (updI q a v0) (a + 1) v1) (a + 2) v2) (a + 3) v3 m := by
  intro m
  simp only [updI]
  split_ifs <;> first | assumption | exact hq m

/-- The index chosen by the dither-path query (initial `best_ind = 0`) is
nonnegative. -/
theorem dither_index_nonneg (pal : Palette) (rr gg bb : Int) :
    0 ≤ (pal.get_closest_pallete_color (pal.bit_depth + 1) rr gg bb
      (transparency_index : Int) 1000000 1).1 := by
  have hpos : 1 ≤ 2 ^ (pal.bit_depth + 1) := Nat.one_le_two_pow
  have hres := get_closest_result pal rr gg bb (pal.bit_depth + 1) 1
    (transparency_index : Int) 1000000 (by omega)
  rcases hres.2 with ⟨h1, _⟩ | ⟨h1, _⟩
  · rw [h1]; simp [transparency_index]
  · omega

/-- One dither step keeps the whole working buffer nonnegative. -/
theorem ditherPix_nonneg (pal : Palette) (last_frame : Option (Nat → Nat))
    (width num_pixels k : Nat) (q : Nat → Int) (hq : ∀ m, 0 ≤ q m) :
    ∀ m, 0 ≤ ditherPix pal last_frame width num_pixels k q m := by
  have hrr : 0 ≤ (q (4 * k) + 127).tdiv 256 := Int.tdiv_nonneg (by have := hq (4 * k); omega) (by norm_num)
  have hgg : 0 ≤ (q (4 * k + 1) + 127).tdiv 256 := Int.tdiv_nonneg (by have := hq (4 * k + 1); omega) (by norm_num)
  have hbb : 0 ≤ (q (4 * k + 2) + 127).tdiv 256 := Int.tdiv_nonneg (by have := hq (4 * k + 2); omega) (by norm_num)
  have hquant : ∀ m, 0 ≤ ditherQuant pal width num_pixels k
      ((q (4 * k) + 127).tdiv 256) ((q (4 * k + 1) + 127).tdiv 256)
      ((q (4 * k + 2) + 127).tdiv 256) q m := by
    unfold ditherQuant
    refine ditherPropagate_nonneg _ _ _ _ _ _
      (ditherPropagate_nonneg _ _ _ _ _ _
        (ditherPropagate_nonneg _ _ _ _ _ _
          (ditherPropagate_nonneg _ _ _ _ _ _ ?_)))
    exact updI4_nonneg _ _ _ _ _ _ hq (by positivity) (by positivity) (by positivity)
      (dither_index_nonneg pal _ _ _)
  unfold ditherPix
  cases last_frame with
  | none => exact hquant
  | some lf =>
    by_cases hc : (byteAt lf (4 * k) : Int) = (q (4 * k) + 127).tdiv 256 ∧
        (byteAt lf (4 * k + 1) : Int) = (q (4 * k + 1) + 127).tdiv 256 ∧
        (byteAt lf (4 * k + 2) : Int) = (q (4 * k + 2) + 127).tdiv 256
    · simp only [if_pos hc]
      exact updI4_nonneg _ _ _ _ _ _ hq hrr hgg hbb (by simp [transparency_index])
    · simp only [if_neg hc]
      exact hquant

/-- **C5** (dither fixed-point arithmetic and one-sided clamp): the working
buffer of the Floyd-Steinberg pass holds `i32` values scaled by 256; every
propagated increment equals `max(-channel, err * weight / 16)` with
truncated division (weights 7, 3, 5, 1), so each cell of the quantization
buffer stays ≥ 0 at every step, while positive overshoot above `256 * 255`
is tolerated — witnessed by a concrete run whose neighbor channel reaches
93840 after one step. -/
theorem C5_dither_fixed_point_clamp (pal : Palette) (last_frame : Option (Nat → Nat))
    (next_frame : Nat → Nat) (width height : Nat) :
    (∀ k, k ≤ width * height → ∀ m,
      0 ≤ iter (fun j q => ditherPix pal last_frame width (width * height) j q) k
        (fun m => (byteAt next_frame m : Int) * 256) m) ∧
    (∀ (q : Nat → Int) (n loc : Nat) (er eg eb : Int), loc < n →
      ditherPropagate q n loc er eg eb (4 * loc) = q (4 * loc) + max (-(q (4 * loc))) er ∧
      ditherPropagate q n loc er eg eb (4 * loc + 1) = q (4 * loc + 1) + max (-(q (4 * loc + 1))) eg ∧
      ditherPropagate q n loc er eg eb (4 * loc + 2) = q (4 * loc + 2) + max (-(q (4 * loc + 2))) eb) ∧
    (iter (fun j q => ditherPix
        (Palette.make ⟨0, fun _ => 0, fun _ => 0, fun _ => 0, fun _ => 0, fun _ => 0⟩ none
          (fun m => if m < 8 then 255 else 0) 3 1 1 true)
        none 3 3 j q) 1
      (fun m => (byteAt (fun m' => if m' < 8 then 255 else 0) m : Int) * 256) 4 = 93840 ∧
      (256 * 255 : Int) < 93840) := by
  refine ⟨?_, ?_, by constructor <;> decide⟩
  · intro k hk
    refine iter_inv (P := fun _ (b : Nat → Int) => ∀ m, 0 ≤ b m) k ?_ ?_
    · intro m; positivity
    · intro j b _ hb
      exact ditherPix_nonneg pal last_frame width (width * height) j b hb
  · intro q n loc er eg eb hl
    exact ditherPropagate_read q n loc er eg eb hl

/-- Witness for C5: the nonnegativity invariant evaluated after one step of
a concrete run, and a concrete propagated increment. -/
theorem C5_dither_fixed_point_clamp_witness :
    0 ≤ iter (fun j q => ditherPix
        (Palette.make ⟨0, fun _ => 0, fun _ => 0, fun _ => 0, fun _ => 0, fun _ => 0⟩ none
          (fun m => if m < 8 then 255 else 0) 3 1 1 true)
        none 3 3 j q) 1
      (fun m => (byteAt (fun m' => if m' < 8 then 255 else 0) m : Int) * 256) 4 := by
  exact (C5_dither_fixed_point_clamp
    (Palette.make ⟨0, fun _ => 0, fun _ => 0, fun _ => 0, fun _ => 0, fun _ => 0⟩ none
      (fun m => if m < 8 then 255 else 0) 3 1 1 true)
    none (fun m => if m < 8 then 255 else 0) 3 1).1 1 (by norm_num) 4

end DitherLemmas

section C10Section

/-- **C10 amended** (dither neighbor wrap-around, width ≥ 2 for the
first-column part): the four error targets are linear indices bounds-checked
only against the pixel count; for a pixel in the last column of a non-final
row the 7/16 target is the first pixel of the next row, and — when
`width ≥ 2` — for a pixel in the first column the 3/16 target is the last
pixel of the pixel's own row, a not-yet-visited pixel of the same row. -/
theorem C10_dither_neighbor_wraparound (width height y x : Nat)
    (hh : 2 ≤ height) (hy : y < height) (hx : x < width) :
    (quantloc7 width y x = y * width + x + 1 ∧
     quantloc3 width y x = y * width + x + width - 1 ∧
     quantloc5 width y x = y * width + x + width ∧
     quantloc1 width y x = y * width + x + width + 1) ∧
    (x = width - 1 → y + 1 < height →
      quantloc7 width y x = (y + 1) * width ∧ quantloc7 width y x < width * height) ∧
    (x = 0 → 2 ≤ width →
      quantloc3 width y x = (y + 1) * width - 1 ∧
      quantloc3 width y x = y * width + (width - 1) ∧
      y * width + x < quantloc3 width y x ∧
      quantloc3 width y x < width * height) ∧
    (∀ (q : Nat → Int) (n loc : Nat) (er eg eb : Int), ¬loc < n →
      ditherPropagate q n loc er eg eb = q) ∧
    (∀ (q : Nat → Int) (n loc : Nat) (er eg eb : Int), loc < n →
      ditherPropagate q n loc er eg eb (4 * loc) = q (4 * loc) + max (-(q (4 * loc))) er) := by
  refine ⟨?_, ?_, ?_, ?_, ?_⟩
  · unfold quantloc7 quantloc3 quantloc5 quantloc1
    omega
  · intro hxw hyh
    subst hxw
    unfold quantloc7
    have hw : 1 ≤ width := by omega
    have h1 : (y + 1) * width = y * width + width := by ring
    have h2 : (y + 1 + 1) * width = (y + 1) * width + width := by ring
    have h3 : (y + 1 + 1) * width ≤ height * width :=
      Nat.mul_le_mul_right _ (by omega)
    have h4 : height * width = width * height := Nat.mul_comm _ _
    omega
  · intro hx0 hw2
    subst hx0
    unfold quantloc3
    have h1 : (y + 1) * width = y * width + width := by ring
    have h3 : (y + 1) * width ≤ height * width := Nat.mul_le_mul_right _ (by omega)
    have h4 : height * width = width * height := Nat.mul_comm _ _
    refine ⟨by omega, by omega, by omega, by omega⟩
  · intro q n loc er eg eb h
    exact ditherPropagate_skip q n loc er eg eb h
  · intro q n loc er eg eb h
    exact (ditherPropagate_read q n loc er eg eb h).1

/-- Counterexample to C10 as stated: at `width = 1` the below-left target of
the first-column pixel (0,0) is the current pixel itself — linear index 0 —
which is not a not-yet-visited pixel. -/
theorem C10_dither_neighbor_wraparound_counterexample :
    quantloc3 1 0 0 = (0 + 1) * 1 - 1 ∧ quantloc3 1 0 0 = 0 * 1 + 0 ∧
    ¬(0 * 1 + 0 < quantloc3 1 0 0) := by
  refine ⟨rfl, rfl, ?_⟩
  simp [quantloc3]

/-- Witness for the amended C10: a concrete 2×2 frame, pixel (0,1) in the
last column of the first row and pixel (0,0) in the first column. -/
theorem C10_dither_neighbor_wraparound_witness :
    quantloc7 2 0 1 = 2 ∧ quantloc3 2 0 0 = 1 := by
  have h := C10_dither_neighbor_wraparound 2 2 0 1 (by norm_num) (by norm_num) (by norm_num)
  have h7 := (h.2.1 (by norm_num) (by norm_num)).1
  have h' := C10_dither_neighbor_wraparound 2 2 0 0 (by norm_num) (by norm_num) (by norm_num)
  have h3 := (h'.2.2.1 rfl (by norm_num)).1
  exact ⟨by rw [h7], by rw [h3]⟩

end C10Section

/-- Conversion of a C++ `int` to `u32` (two's complement wraparound). -/
def toU32 (i : Int) : Nat := (i % 4294967296).toNat

/-- C++ `BitStatus` together with the bytes already flushed to the file. -/
structure BitStatus where
  bit_index : Nat
  byte : Nat
  chunk_index : Nat
  chunk : Nat → Nat
  out : List Nat

/-- C++ `BitStatus::write_bit`: or the bit into the partial byte; when the byte
fills, store it in the chunk buffer and reset. -/
def BitStatus.write_bit (s : BitStatus) (bit : Nat) : BitStatus :=
  let b := (bit % 2) <<< s.bit_index
  let byte' := (s.byte ||| b) % 256
  if 7 < s.bit_index + 1 then
    { s with
        bit_index := 0
        byte := 0
        chunk := updN s.chunk s.chunk_index byte'
        chunk_index := s.chunk_index + 1 }
  else { s with bit_index := s.bit_index + 1, byte := byte' }

/-- C++ `BitStatus::write_chunk`: emit the length byte then the chunk payload,
and reset the stream state. -/
def BitStatus.write_chunk (s : BitStatus) : BitStatus :=
  { bit_index := 0, byte := 0, chunk_index := 0, chunk := s.chunk,
    out := s.out ++ s.chunk_index % 256 :: (List.range s.chunk_index).map (fun i => s.chunk i % 256) }

/-- C++ `BitStatus::write_code`: `length` bits of `code`, LSB first; after every
bit, flush the chunk if `chunk_index` reached 255. -/
def BitStatus.write_code (s : BitStatus) (code length : Nat) : BitStatus :=
  match length with
  | 0 => s
  | l + 1 =>
    let s1 := s.write_bit code
    let s2 := if s1.chunk_index = 255 then s1.write_chunk else s1
    s2.write_code (code >>> 1) l

/-- The byte-aligning zero-bit padding loop at the end of
`write_lzw_image` (`while (stat.bit_index) stat.write_bit(0)`); at most 8
iterations are ever taken, which the fuel dominates. -/
def padAlign : Nat → BitStatus → BitStatus
  | 0, s => s
  | fuel + 1, s => if s.bit_index ≠ 0 then padAlign fuel (s.write_bit 0) else s

/-- Update one dictionary slot `codetree[i].next[j]`. -/
def upd2 (f : Nat → Nat → Nat) (i j v : Nat) : Nat → Nat → Nat :=
  fun a b => if a = i ∧ b = j then v else f a b

/-- LZW encoder state of the per-pixel loop of `write_lzw_image`: the
4096-node dictionary (`codetree[c].next[v]`, `u16` cells, 0 = unused), the
current run (`int`, −1 = no run), the emission width, the next free code,
and the bit stream. -/
structure LzwState where
  codetree : Nat → Nat → Nat
  curr_code : Int
  code_size : Nat
  max_code : Nat
  stat : BitStatus

/-- The per-pixel loop body of `write_lzw_image` on input symbol
`next_value`. -/
def lzwStep (min_code_size clear_code : Nat) (st : LzwState) (next_value : Nat) : LzwState :=
  if st.curr_code < 0 then { st with curr_code := (next_value : Int) }
  else if st.codetree st.curr_code.toNat next_value ≠ 0 then
    { st with curr_code := (st.codetree st.curr_code.toNat next_value : Int) }
  else
    let stat1 := st.stat.write_code (toU32 st.curr_code) st.code_size
    let max1 := st.max_code + 1
    let tree1 := upd2 st.codetree st.curr_code.toNat next_value (max1 % 65536)
    let size1 := if 2 ^ st.code_size ≤ max1 then st.code_size + 1 else st.code_size
    if max1 = 4095 then
      { codetree := fun _ _ => 0, curr_code := (next_value : Int),
        code_size := min_code_size + 1, max_code := clear_code + 1,
        stat := stat1.write_code clear_code size1 }
    else
      { codetree := tree1, curr_code := (next_value : Int), code_size := size1,
        max_code := max1, stat := stat1 }

/-- The symbol stream of the LZW loop: the fourth (palette-index) byte of
each pixel quad in raster order (`image[(y*width + x)*4 + 3]`). -/
def lzwSymbols (image : Nat → Nat) (num_pixels : Nat) : List Nat :=
  (List.range num_pixels).map fun k => byteAt image (4 * k + 3)

/-- C++ `Palette::write`: the local color table — entry 0 is (0,0,0), then
entries 1 … 2^bit_depth − 1. -/
def Palette.write (pal : Palette) : List Nat :=
  [0, 0, 0] ++ (List.range (2 ^ pal.bit_depth - 1)).flatMap
    (fun i => [byteAt pal.r (i + 1), byteAt pal.g (i + 1), byteAt pal.b (i + 1)])

/-- The fresh `BitStatus stat` of `write_lzw_image` (value-initialized
counters; the chunk array contents are never emitted before being stored). -/
def BitStatus.fresh : BitStatus :=
  { bit_index := 0, byte := 0, chunk_index := 0, chunk := fun _ => 0, out := [] }

/-- C++ `write_lzw_image`: graphic control extension, image descriptor, local
color table, then the LZW-compressed raster in 255-byte sub-blocks; returns
the bytes appended to the file. -/
def write_lzw_image (image : Nat → Nat) (left top width height delay : Nat)
    (pal : Palette) : List Nat :=
  let header : List Nat :=
    [0x21, 0xf9, 0x04, 0x05, delay % 256, (delay >>> 8) % 256, transparency_index, 0,
     0x2c, left % 256, (left >>> 8) % 256, top % 256, (top >>> 8) % 256,
     width % 256, (width >>> 8) % 256, height % 256, (height >>> 8) % 256,
     (0x80 + pal.bit_depth - 1) % 256]
  let min_code_size := pal.bit_depth
  let clear_code := 2 ^ pal.bit_depth
  let st1 : LzwState :=
    { codetree := fun _ _ => 0, curr_code := -1, code_size := min_code_size + 1,
      max_code := clear_code + 1,
      stat := BitStatus.fresh.write_code clear_code (min_code_size + 1) }
  let st2 := (lzwSymbols image (width * height)).foldl (lzwStep min_code_size clear_code) st1
  let stat3 := st2.stat.write_code (toU32 st2.curr_code) st2.code_size
  let stat4 := stat3.write_code clear_code st2.code_size
  let stat5 := stat4.write_code (clear_code + 1) (min_code_size + 1)
  let stat6 := padAlign 8 stat5
  let stat7 := if stat6.chunk_index ≠ 0 then stat6.write_chunk else stat6
  header ++ pal.write ++ [min_code_size % 256] ++ stat7.out ++ [0]

/-- The `Writer`: whether the file handle is live, the previous-frame
buffer, and the first-frame flag. -/
structure Writer where
  f_open : Bool
  old_image : Nat → Nat
  first_frame : Bool

/-- The bytes `Writer::open` writes after acquiring the sink: "GIF89a",
the logical screen descriptor, the dummy 2-entry global color table, and —
iff `delay ≠ 0` — the NETSCAPE2.0 looping block. -/
def writerOpenBytes (width height delay : Nat) : List Nat :=
  [71, 73, 70, 56, 57, 97,
   width % 256, (width >>> 8) % 256, height % 256, (height >>> 8) % 256,
   0xf0, 0, 0, 0, 0, 0, 0, 0, 0] ++
  (if delay ≠ 0 then
    [0x21, 0xff, 11, 78, 69, 84, 83, 67, 65, 80, 69, 50, 46, 48, 3, 1, 0, 0, 0]
   else [])

/-- C++ `Writer::open` on a successfully created sink: a live writer with a
zero-initialized previous-frame buffer, plus the header bytes. -/
def Writer.open (width height delay : Nat) : Writer × List Nat :=
  ({ f_open := true, old_image := fun _ => 0, first_frame := true },
   writerOpenBytes width height delay)

/-- C++ `Writer::write_frame`: on a closed writer, `false` with no output and no
state change; otherwise build the palette (trained against the previous
frame only when dithering is off and a frame was already written), quantize
into the previous-frame buffer, and emit the compressed frame.  `pal_init`
models the indeterminate initial contents of the stack `Palette` object. -/
def Writer.write_frame (w : Writer) (image : Nat → Nat) (width height delay : Nat)
    (bit_depth : Nat) (dither : Bool) (pal_init : Palette) :
    Writer × List Nat × Bool :=
  if w.f_open = false then (w, [], false)
  else
    let old_image : Option (Nat → Nat) := if w.first_frame then none else some w.old_image
    let pal := Palette.make pal_init (if dither then none else old_image) image width height
        bit_depth dither
    let new_old := if dither then dither_image old_image image w.old_image width height pal
                   else threshold_image old_image image w.old_image width height pal
    let bytes := write_lzw_image new_old 0 0 width height delay pal
    ({ f_open := true, old_image := new_old, first_frame := false }, bytes, true)

/-- C++ `Writer::close`: on a closed writer, `false`; otherwise release the
handle — the `File` deleter appends the trailer byte `0x3b` — and free the
previous-frame buffer. -/
def Writer.close (w : Writer) : Writer × List Nat × Bool :=
  if w.f_open = false then (w, [], false)
  else ({ f_open := false, old_image := fun _ => 0, first_frame := w.first_frame }, [0x3b], true)

/-- A queued operation on an open writer. -/
inductive GifOp where
  | frame (image : Nat → Nat) (width height delay bit_depth : Nat) (dither : Bool)
      (pal_init : Palette)
  | close

/-- Output events of a writer lifetime: payload bytes, or the trailer byte
`0x3b` emitted by the `File` deleter when the handle is released. -/
inductive TraceEv where
  | payload (bytes : List Nat)
  | trailer

/-- Whether an event is the trailer emission. -/
def TraceEv.isTrailer : TraceEv → Bool
  | .payload _ => false
  | .trailer => true

/-- Execute one queued operation, returning the new writer and the emitted
events. -/
def stepOpEv (w : Writer) : GifOp → Writer × List TraceEv
  | GifOp.frame img wd ht d bd dith pi =>
    let res := w.write_frame img wd ht d bd dith pi
    (res.1, if w.f_open then [TraceEv.payload res.2.1] else [])
  | GifOp.close =>
    let res := w.close
    (res.1, if w.f_open then [TraceEv.trailer] else [])

/-- Run a list of queued operations. -/
def runOps (w : Writer) : List GifOp → Writer × List TraceEv
  | [] => (w, [])
  | op :: ops =>
    let res := stepOpEv w op
    let rest := runOps res.1 ops
    (rest.1, res.2 ++ rest.2)

/-- A full writer lifetime: `open`, the queued operations, then destruction
of the writer value — the `unique_ptr` deleter emits the trailer at scope
exit when `close` was never reached. -/
def writerTrace (width height delay : Nat) (ops : List GifOp) : List TraceEv :=
  let o := Writer.open width height delay
  let r := runOps o.1 ops
  TraceEv.payload o.2 :: (r.2 ++ (if r.1.f_open then [TraceEv.trailer] else []))

/-- The byte stream of a complete `open` / `write_frame*` / `close` run.
Each frame is paired with the indeterminate initial contents of the
per-frame stack `Palette`. -/
def runGif (width height delay : Nat) (frames : List ((Nat → Nat) × Palette))
    (bit_depth : Nat) (dither : Bool) : List Nat :=
  let o := Writer.open width height delay
  let res := frames.foldl (fun acc fr =>
      let r := acc.1.write_frame fr.1 width height delay bit_depth dither fr.2
      (r.1, acc.2 ++ r.2.1)) (o.1, o.2)
  let c := res.1.close
  res.2 ++ c.2.1

section LzwTheorems

/-- **C3** (LZW dictionary-growth sequencing): when the current run cannot
be extended, `curr_code` is emitted at the current `code_size`, the new run
is recorded as `dict[curr_code].next[next_value] = ++max_code`, and only
after recording is `code_size` incremented — by one, iff the new
`max_code ≥ 2^code_size`; when the new `max_code` equals 4095 a clear code
is emitted at the (possibly just-incremented) `code_size`, the dictionary is
zeroed, `code_size` resets to `min_code_size + 1` and `max_code` to
`clear_code + 1`. -/
theorem C3_lzw_dictionary_growth_sequencing
    (min_code_size clear_code : Nat) (st : LzwState) (v : Nat)
    (hrun : ¬st.curr_code < 0) (hnew : st.codetree st.curr_code.toNat v = 0) :
    ((lzwStep min_code_size clear_code st v).curr_code = (v : Int)) ∧
    (st.max_code + 1 ≠ 4095 →
      (lzwStep min_code_size clear_code st v).codetree =
        upd2 st.codetree st.curr_code.toNat v ((st.max_code + 1) % 65536) ∧
      (lzwStep min_code_size clear_code st v).max_code = st.max_code + 1 ∧
      (lzwStep min_code_size clear_code st v).code_size =
        (if 2 ^ st.code_size ≤ st.max_code + 1 then st.code_size + 1 else st.code_size) ∧
      (lzwStep min_code_size clear_code st v).stat =
        st.stat.write_code (toU32 st.curr_code) st.code_size) ∧
    (st.max_code + 1 = 4095 →
      (lzwStep min_code_size clear_code st v).codetree = (fun _ _ => 0) ∧
      (lzwStep min_code_size clear_code st v).max_code = clear_code + 1 ∧
      (lzwStep min_code_size clear_code st v).code_size = min_code_size + 1 ∧
      (lzwStep min_code_size clear_code st v).stat =
        (st.stat.write_code (toU32 st.curr_code) st.code_size).write_code clear_code
          (if 2 ^ st.code_size ≤ st.max_code + 1 then st.code_size + 1 else st.code_size)) := by
  unfold lzwStep
  rw [if_neg hrun]
  have hfalse : ¬st.codetree st.curr_code.toNat v ≠ 0 := by simp [hnew]
  rw [if_neg hfalse]
  by_cases h4095 : st.max_code + 1 = 4095
  · simp [h4095]
  · simp [h4095]

/-- Witness for C3: a concrete state with a live run and a free dictionary
slot. -/
theorem C3_lzw_dictionary_growth_sequencing_witness :
    (lzwStep 2 4 ⟨fun _ _ => 0, 3, 3, 5, BitStatus.fresh⟩ 2).max_code = 6 ∧
    (lzwStep 2 4 ⟨fun _ _ => 0, 3, 3, 5, BitStatus.fresh⟩ 2).curr_code = 2 := by
  have h := C3_lzw_dictionary_growth_sequencing 2 4 ⟨fun _ _ => 0, 3, 3, 5, BitStatus.fresh⟩ 2
    (by norm_num) rfl
  exact ⟨(h.2.1 (by norm_num)).2.1, h.1⟩

theorem write_bit_chunk_index (s : BitStatus) (bit : Nat) :
    (s.write_bit bit).chunk_index ≤ s.chunk_index + 1 := by
  unfold BitStatus.write_bit
  split_ifs <;> simp

theorem write_bit_bit_index (s : BitStatus) (bit : Nat) (h : s.bit_index ≤ 7) :
    (s.write_bit bit).bit_index ≤ 7 := by
  unfold BitStatus.write_bit
  split_ifs <;> simp <;> omega

/-- The sub-block invariant is preserved by `write_code`: starting below
255, after every bit the flush keeps `chunk_index ≤ 254`. -/
theorem write_code_inv :
    ∀ (len : Nat) (s : BitStatus) (code : Nat), s.chunk_index ≤ 254 → s.bit_index ≤ 7 →
      (s.write_code code len).chunk_index ≤ 254 ∧ (s.write_code code len).bit_index ≤ 7
  | 0, s, code, hci, hbi => ⟨hci, hbi⟩
  | (len + 1), s, code, hci, hbi => by
      simp only [BitStatus.write_code]
      have h1 := write_bit_chunk_index s code
      have h2 := write_bit_bit_index s code hbi
      by_cases hflush : (s.write_bit code).chunk_index = 255
      · rw [if_pos hflush]
        exact write_code_inv len _ _ (by simp [BitStatus.write_chunk]) (by simp [BitStatus.write_chunk])
      · rw [if_neg hflush]
        exact write_code_inv len _ _ (by omega) h2

theorem lzwStep_inv (mcs cc : Nat) (st : LzwState) (v : Nat)
    (hci : st.stat.chunk_index ≤ 254) (hbi : st.stat.bit_index ≤ 7) :
    (lzwStep mcs cc st v).stat.chunk_index ≤ 254 ∧
    (lzwStep mcs cc st v).stat.bit_index ≤ 7 := by
  unfold lzwStep
  by_cases h1 : st.curr_code < 0
  · rw [if_pos h1]; exact ⟨hci, hbi⟩
  · rw [if_neg h1]
    by_cases h2 : st.codetree st.curr_code.toNat v ≠ 0
    · rw [if_pos h2]; exact ⟨hci, hbi⟩
    · rw [if_neg h2]
      have hwc := write_code_inv st.code_size st.stat (toU32 st.curr_code) hci hbi
      by_cases h3 : st.max_code + 1 = 4095
      · simp only [if_pos h3]
        exact write_code_inv _ _ _ hwc.1 hwc.2
      · simp only [if_neg h3]
        exact hwc

theorem foldl_lzw_inv (mcs cc : Nat) :
    ∀ (syms : List Nat) (st : LzwState), st.stat.chunk_index ≤ 254 →
      st.stat.bit_index ≤ 7 →
      (syms.foldl (lzwStep mcs cc) st).stat.chunk_index ≤ 254 ∧
      (syms.foldl (lzwStep mcs cc) st).stat.bit_index ≤ 7
  | [], st, hci, hbi => ⟨hci, hbi⟩
  | v :: syms, st, hci, hbi => by
      simp only [List.foldl_cons]
      have h := lzwStep_inv mcs cc st v hci hbi
      exact foldl_lzw_inv mcs cc syms _ h.1 h.2

theorem padAlign_zero (fuel : Nat) (s : BitStatus) (h : s.bit_index = 0) :
    padAlign fuel s = s := by
  cases fuel <;> simp [padAlign, h]

/-- The byte-aligning padding loop adds at most one byte to the chunk. -/
theorem padAlign_chunk_index :
    ∀ (fuel : Nat) (s : BitStatus), s.bit_index ≤ 7 →
      (padAlign fuel s).chunk_index ≤ s.chunk_index + 1
  | 0, s, _ => by simp [padAlign]
  | (fuel + 1), s, hbi => by
      simp only [padAlign]
      by_cases hz : s.bit_index ≠ 0
      · rw [if_pos hz]
        by_cases hfull : 7 < s.bit_index + 1
        · have hw : (s.write_bit 0).bit_index = 0 ∧
              (s.write_bit 0).chunk_index = s.chunk_index + 1 := by
            unfold BitStatus.write_bit
            rw [if_pos hfull]
            exact ⟨rfl, rfl⟩
          rw [padAlign_zero fuel _ hw.1, hw.2]
        · have hw : (s.write_bit 0).bit_index = s.bit_index + 1 ∧
              (s.write_bit 0).chunk_index = s.chunk_index := by
            unfold BitStatus.write_bit
            rw [if_neg hfull]
            exact ⟨rfl, rfl⟩
          have := padAlign_chunk_index fuel (s.write_bit 0) (by omega)
          omega
      · rw [if_neg hz]; omega

/-- **C6** (BitStream sub-block bound): between bit writes during LZW
emission `chunk_index ≤ 254 < 255`; `write_bit` raises it by at most one, so
every store into the 256-byte chunk happens at an index below 256;
`write_code` flushes after every single bit once `chunk_index` reaches 255;
the per-pixel loop keeps the invariant from the initial clear code on; and
the final byte-alignment padding adds at most one byte before the closing
flush check. -/
theorem C6_bitstream_subblock_bound :
    (∀ (s : BitStatus) (code len : Nat), s.chunk_index ≤ 254 → s.bit_index ≤ 7 →
      (s.write_code code len).chunk_index ≤ 254 ∧ (s.write_code code len).bit_index ≤ 7) ∧
    (∀ (s : BitStatus) (bit : Nat), s.chunk_index ≤ 254 →
      (s.write_bit bit).chunk_index ≤ 255 ∧ s.chunk_index < 256) ∧
    (∀ (mcs cc : Nat) (st : LzwState) (syms : List Nat),
      st.stat.chunk_index ≤ 254 → st.stat.bit_index ≤ 7 →
      (syms.foldl (lzwStep mcs cc) st).stat.chunk_index ≤ 254) ∧
    (∀ (s : BitStatus), s.bit_index ≤ 7 →
      (padAlign 8 s).chunk_index ≤ s.chunk_index + 1) ∧
    (∀ (image : Nat → Nat) (width height : Nat) (pal : Palette) (k : Nat),
      (((lzwSymbols image (width * height)).take k).foldl
          (lzwStep pal.bit_depth (2 ^ pal.bit_depth))
          { codetree := fun _ _ => 0, curr_code := -1, code_size := pal.bit_depth + 1,
            max_code := 2 ^ pal.bit_depth + 1,
            stat := BitStatus.fresh.write_code (2 ^ pal.bit_depth)
              (pal.bit_depth + 1) }).stat.chunk_index ≤ 254) := by
  refine ⟨fun s code len hci hbi => write_code_inv len s code hci hbi, ?_, ?_,
    padAlign_chunk_index 8, ?_⟩
  · intro s bit hci
    exact ⟨le_trans (write_bit_chunk_index s bit) (by omega), by omega⟩
  · intro mcs cc st syms hci hbi
    exact (foldl_lzw_inv mcs cc syms st hci hbi).1
  · intro image width height pal k
    have h0 := write_code_inv (pal.bit_depth + 1) BitStatus.fresh (2 ^ pal.bit_depth)
      (by simp [BitStatus.fresh]) (by simp [BitStatus.fresh])
    exact (foldl_lzw_inv (pal.bit_depth) (2 ^ pal.bit_depth) _ _ h0.1 h0.2).1

/-- Witness for C6: the invariant at a concrete fresh stream. -/
theorem C6_bitstream_subblock_bound_witness :
    (BitStatus.fresh.write_code 4 3).chunk_index ≤ 254 ∧
    (padAlign 8 BitStatus.fresh).chunk_index ≤ BitStatus.fresh.chunk_index + 1 := by
  refine ⟨?_, ?_⟩
  · exact (C6_bitstream_subblock_bound.1 BitStatus.fresh 4 3 (by decide) (by decide)).1
  · exact C6_bitstream_subblock_bound.2.2.2.1 BitStatus.fresh (by decide)

end LzwTheorems

section WriterTheorems

/-- **C7** (closed-writer error behaviour): on a writer whose sink has been
released, `write_frame` returns false with no output and no state change,
and `close` likewise; `close` on an open writer succeeds, emits the trailer,
and leaves the writer closed, so a second `close` reports closed. -/
theorem C7_closed_writer_error_behaviour (w : Writer) (hw : w.f_open = false)
    (w' : Writer) (hw' : w'.f_open = true)
    (image : Nat → Nat) (width height delay bit_depth : Nat) (dither : Bool)
    (pal_init : Palette) :
    w.write_frame image width height delay bit_depth dither pal_init = (w, [], false) ∧
    w.close = (w, [], false) ∧
    (w'.close).2.2 = true ∧ (w'.close).2.1 = [0x3b] ∧ ((w'.close).1).f_open = false ∧
    ((w'.close).1).close = ((w'.close).1, [], false) := by
  refine ⟨?_, ?_, ?_, ?_, ?_, ?_⟩
  · unfold Writer.write_frame; rw [if_pos (by simp [hw])]
  · unfold Writer.close; rw [if_pos (by simp [hw])]
  · unfold Writer.close; rw [if_neg (by simp [hw'])]
  · unfold Writer.close; rw [if_neg (by simp [hw'])]
  · unfold Writer.close; rw [if_neg (by simp [hw'])]
  · have hcl : ((w'.close).1).f_open = false := by
      unfold Writer.close; rw [if_neg (by simp [hw'])]
    generalize hq : (w'.close).1 = w2 at hcl ⊢
    unfold Writer.close
    rw [if_pos (by simp [hcl])]

/-- Witness for C7 at concrete closed and open writers. -/
theorem C7_closed_writer_error_behaviour_witness :
    (Writer.close ⟨false, fun _ => 0, true⟩).2.2 = false ∧
    (Writer.close ⟨true, fun _ => 0, true⟩).2.2 = true := by
  have h := C7_closed_writer_error_behaviour ⟨false, fun _ => 0, true⟩ rfl
    ⟨true, fun _ => 0, true⟩ rfl (fun _ => 0) 1 1 0 1 false
    ⟨0, fun _ => 0, fun _ => 0, fun _ => 0, fun _ => 0, fun _ => 0⟩
  exact ⟨by rw [h.2.1], h.2.2.1⟩

theorem write_frame_keeps_open (w : Writer) (hw : w.f_open = true)
    (image : Nat → Nat) (width height delay bit_depth : Nat) (dither : Bool)
    (pal_init : Palette) :
    (w.write_frame image width height delay bit_depth dither pal_init).1.f_open = true := by
  unfold Writer.write_frame
  rw [if_neg (by simp [hw])]

theorem close_closes (w : Writer) (hw : w.f_open = true) :
    (w.close).1.f_open = false := by
  unfold Writer.close
  rw [if_neg (by simp [hw])]

theorem runOps_closed :
    ∀ (ops : List GifOp) (w : Writer), w.f_open = false → runOps w ops = (w, [])
  | [], w, _ => rfl
  | op :: ops, w, hw => by
      cases op with
      | frame img wd ht d bd dith pi =>
        simp only [runOps, stepOpEv]
        have h1 : w.write_frame img wd ht d bd dith pi = (w, [], false) := by
          unfold Writer.write_frame; rw [if_pos (by simp [hw])]
        rw [h1]
        simp only [hw]
        rw [runOps_closed ops w hw]
        simp
      | close =>
        simp only [runOps, stepOpEv]
        have h1 : w.close = (w, [], false) := by
          unfold Writer.close; rw [if_pos (by simp [hw])]
        rw [h1]
        simp only [hw]
        rw [runOps_closed ops w hw]
        simp

theorem runOps_open :
    ∀ (ops : List GifOp) (w : Writer), w.f_open = true →
      ((runOps w ops).1.f_open = true ∧ ∀ e ∈ (runOps w ops).2, e.isTrailer = false) ∨
      ((runOps w ops).1.f_open = false ∧ ∃ pre, (runOps w ops).2 = pre ++ [TraceEv.trailer] ∧
        ∀ e ∈ pre, e.isTrailer = false)
  | [], w, hw => Or.inl ⟨hw, by simp [runOps]⟩
  | op :: ops, w, hw => by
      cases op with
      | frame img wd ht d bd dith pi =>
        simp only [runOps, stepOpEv, hw, if_pos]
        have hopen := write_frame_keeps_open w hw img wd ht d bd dith pi
        rcases runOps_open ops (w.write_frame img wd ht d bd dith pi).1 hopen with
          ⟨h1, h2⟩ | ⟨h1, pre, hpre, hall⟩
        · refine Or.inl ⟨h1, ?_⟩
          intro e he
          simp only [List.mem_append, List.mem_singleton] at he
          rcases he with he | he
          · subst he; rfl
          · exact h2 e he
        · refine Or.inr ⟨h1, TraceEv.payload (w.write_frame img wd ht d bd dith pi).2.1 :: pre, ?_, ?_⟩
          · simp [hpre]
          · intro e he
            simp only [List.mem_cons] at he
            rcases he with he | he
            · subst he; rfl
            · exact hall e he
      | close =>
        simp only [runOps, stepOpEv, hw, if_pos]
        have hcl := close_closes w hw
        rw [runOps_closed ops (w.close).1 hcl]
        exact Or.inr ⟨hcl, [], by simp, by simp⟩

/-- Counting helper: a trailer-free prefix followed by the trailer holds
exactly one trailer. -/
theorem countP_trailer_append (pre : List TraceEv)
    (hall : ∀ e ∈ pre, e.isTrailer = false) :
    List.countP (fun e => e.isTrailer) (pre ++ [TraceEv.trailer]) = 1 := by
  rw [List.countP_append]
  have hz : List.countP (fun e => e.isTrailer) pre = 0 :=
    List.countP_eq_zero.mpr (by intro a ha; simp [hall a ha])
  rw [hz]
  rfl

/-- **C8** (trailer on release): every successfully opened writer's lifetime
trace — any sequence of `write_frame`/`close` calls followed by destruction
of the writer — contains exactly one trailer emission (the `0x3b` append and
sink close), and it is the final event: on explicit `close`, or at scope
exit when `close` was never called, also when the caller abandons the writer
after an error. -/
theorem C8_trailer_on_release (width height delay : Nat) (ops : List GifOp) :
    List.countP (fun e => e.isTrailer) (writerTrace width height delay ops) = 1 ∧
    ∃ pre, writerTrace width height delay ops = pre ++ [TraceEv.trailer] ∧
      ∀ e ∈ pre, e.isTrailer = false := by
  have hw : (Writer.open width height delay).1.f_open = true := rfl
  rcases runOps_open ops (Writer.open width height delay).1 hw with
    ⟨h1, h2⟩ | ⟨h1, pre, hpre, hall⟩
  · have heq : writerTrace width height delay ops =
        (TraceEv.payload (Writer.open width height delay).2 ::
          (runOps (Writer.open width height delay).1 ops).2) ++ [TraceEv.trailer] := by
      simp only [writerTrace]
      rw [h1]
      simp
    have hall' : ∀ e ∈ TraceEv.payload (Writer.open width height delay).2 ::
        (runOps (Writer.open width height delay).1 ops).2, e.isTrailer = false := by
      intro e he
      rcases List.mem_cons.mp he with he | he
      · subst he; rfl
      · exact h2 e he
    rw [heq]
    exact ⟨countP_trailer_append _ hall', _, rfl, hall'⟩
  · have heq : writerTrace width height delay ops =
        (TraceEv.payload (Writer.open width height delay).2 :: pre) ++ [TraceEv.trailer] := by
      simp only [writerTrace]
      rw [h1, hpre]
      simp
    have hall' : ∀ e ∈ TraceEv.payload (Writer.open width height delay).2 :: pre,
        e.isTrailer = false := by
      intro e he
      rcases List.mem_cons.mp he with he | he
      · subst he; rfl
      · exact hall e he
    rw [heq]
    exact ⟨countP_trailer_append _ hall', _, rfl, hall'⟩

end WriterTheorems

section C9Section

/-- **C9 amended** (determinism up to indeterminate palette memory): the
emitted byte stream is a pure function of the frame sequence, the
parameters, and the initial contents of each frame's uninitialized stack
`Palette` arrays; two runs whose inputs and initial palette contents
coincide produce byte-identical output.  (Without fixing those contents the
output can differ: unwritten palette entries are emitted — see the
counterexample.) -/
theorem C9_determinism_given_palette_init
    (width height delay bit_depth : Nat) (dither : Bool)
    (frames1 frames2 : List ((Nat → Nat) × Palette)) (h : frames1 = frames2) :
    runGif width height delay frames1 bit_depth dither =
    runGif width height delay frames2 bit_depth dither := by
  rw [h]

/-- Witness for the amended C9 at a concrete run. -/
theorem C9_determinism_given_palette_init_witness :
    runGif 1 1 0 [(fun _ => 0, ⟨0, fun _ => 0, fun _ => 0, fun _ => 0, fun _ => 0, fun _ => 0⟩)] 1 false =
    runGif 1 1 0 [(fun _ => 0, ⟨0, fun _ => 0, fun _ => 0, fun _ => 0, fun _ => 0, fun _ => 0⟩)] 1 false :=
  C9_determinism_given_palette_init 1 1 0 1 false _ _ rfl

/-- Counterexample to C9 as stated: the same single-frame input encoded
twice gives different bytes when the palette's uninitialized arrays start
out different — a 1×1 frame at `bit_depth = 2` leaves the k-d tree leaves 1
and 2 unwritten, and `Palette::write` emits them into the local color
table. -/
theorem C9_determinism_counterexample :
    runGif 1 1 0
      [(fun m => if m = 0 then 5 else if m = 1 then 7 else if m = 2 then 9 else
          if m = 3 then 255 else 0,
        ⟨0, fun _ => 0, fun _ => 0, fun _ => 0, fun _ => 0, fun _ => 0⟩)] 2 false ≠
    runGif 1 1 0
      [(fun m => if m = 0 then 5 else if m = 1 then 7 else if m = 2 then 9 else
          if m = 3 then 255 else 0,
        ⟨0, fun _ => 1, fun _ => 0, fun _ => 0, fun _ => 0, fun _ => 0⟩)] 2 false := by
  decide

end C9Section

section C4Section

theorem byteAt_lt (f : Nat → Nat) (a : Nat) : byteAt f a < 256 :=
  Nat.mod_lt _ (by norm_num)

theorem updI4_read (q : Nat → Int) (a : Nat) (v0 v1 v2 v3 : Int) :
    updI (updI (updI (updI q a v0) (a + 1) v1) (a + 2) v2) (a + 3) v3 a = v0 ∧
    updI (updI (updI (updI q a v0) (a + 1) v1) (a + 2) v2) (a + 3) v3 (a + 1) = v1 ∧
    updI (updI (updI (updI q a v0) (a + 1) v1) (a + 2) v2) (a + 3) v3 (a + 2) = v2 ∧
    updI (updI (updI (updI q a v0) (a + 1) v1) (a + 2) v2) (a + 3) v3 (a + 3) = v3 := by
  refine ⟨?_, ?_, ?_, ?_⟩ <;> simp [updI]

theorem updI4_other (q : Nat → Int) (a : Nat) (v0 v1 v2 v3 : Int) (m : Nat)
    (h0 : m ≠ a) (h1 : m ≠ a + 1) (h2 : m ≠ a + 2) (h3 : m ≠ a + 3) :
    updI (updI (updI (updI q a v0) (a + 1) v1) (a + 2) v2) (a + 3) v3 m = q m := by
  simp [updI, h0, h1, h2, h3]

/-- With `width ≥ 2`, the palettize-and-diffuse branch at pixel `j` never
touches addresses below the pixel's own quad: all four targets lie strictly
after `j`. -/
theorem ditherQuant_lower (pal : Palette) (width n j : Nat) (rr gg bb : Int)
    (q : Nat → Int) (hw2 : 2 ≤ width) (m : Nat) (hm : m < 4 * j) :
    ditherQuant pal width n j rr gg bb q m = q m := by
  simp only [ditherQuant]
  rw [ditherPropagate_other _ _ _ _ _ _ _ (by omega) (by omega) (by omega),
    ditherPropagate_other _ _ _ _ _ _ _ (by omega) (by omega) (by omega),
    ditherPropagate_other _ _ _ _ _ _ _ (by omega) (by omega) (by omega),
    ditherPropagate_other _ _ _ _ _ _ _ (by omega) (by omega) (by omega)]
  exact updI4_other _ _ _ _ _ _ _ (by omega) (by omega) (by omega) (by omega)

/-- With `width ≥ 2`, one dither step leaves all earlier pixels' quads
untouched. -/
theorem ditherPix_lower (pal : Palette) (lf : Option (Nat → Nat)) (width n j : Nat)
    (q : Nat → Int) (hw2 : 2 ≤ width) (m : Nat) (hm : m < 4 * j) :
    ditherPix pal lf width n j q m = q m := by
  cases lf with
  | none => exact ditherQuant_lower pal width n j _ _ _ q hw2 m hm
  | some lfv =>
    simp only [ditherPix]
    by_cases hc : (byteAt lfv (4 * j) : Int) = (q (4 * j) + 127).tdiv 256 ∧
        (byteAt lfv (4 * j + 1) : Int) = (q (4 * j + 1) + 127).tdiv 256 ∧
        (byteAt lfv (4 * j + 2) : Int) = (q (4 * j + 2) + 127).tdiv 256
    · rw [if_pos hc]
      exact updI4_other _ _ _ _ _ _ _ (by omega) (by omega) (by omega) (by omega)
    · rw [if_neg hc]
      exact ditherQuant_lower pal width n j _ _ _ q hw2 m hm

/-- The dither-path query result fits in a byte when `bit_depth ≤ 8`. -/
theorem dither_index_le (pal : Palette) (rr gg bb : Int) (hbd : pal.bit_depth ≤ 8) :
    (pal.get_closest_pallete_color (pal.bit_depth + 1) rr gg bb
      (transparency_index : Int) 1000000 1).1 ≤ 255 := by
  have hpos : 1 ≤ 2 ^ (pal.bit_depth + 1) := Nat.one_le_two_pow
  have hres := get_closest_result pal rr gg bb (pal.bit_depth + 1) 1
    (transparency_index : Int) 1000000 (by omega)
  have hpow : (2 : Int) ^ pal.bit_depth ≤ 2 ^ 8 := pow_le_pow_right₀ (by norm_num) hbd
  have h256 : (2 : Int) ^ 8 = 256 := by norm_num
  rcases hres.2 with ⟨h1, _⟩ | ⟨_, h2⟩
  · rw [h1]; simp [transparency_index]
  · omega

/-- One dither step writes the claimed quad at its own pixel: either the
carried-over previous color with index 0, or the queried palette entry's
color with its index (`width ≥ 2` keeps all diffusion targets past `j`). -/
theorem ditherPix_own (pal : Palette) (lf : Option (Nat → Nat)) (width n j : Nat)
    (q : Nat → Int) (hw2 : 2 ≤ width) (hbd : pal.bit_depth ≤ 8) :
    (∃ lfv, lf = some lfv ∧
      ditherPix pal lf width n j q (4 * j + 3) = 0 ∧
      ditherPix pal lf width n j q (4 * j) = (byteAt lfv (4 * j) : Int) ∧
      ditherPix pal lf width n j q (4 * j + 1) = (byteAt lfv (4 * j + 1) : Int) ∧
      ditherPix pal lf width n j q (4 * j + 2) = (byteAt lfv (4 * j + 2) : Int)) ∨
    (∃ ind : Nat, ind ≤ 255 ∧
      ditherPix pal lf width n j q (4 * j + 3) = (ind : Int) ∧
      ditherPix pal lf width n j q (4 * j) = (byteAt pal.r ind : Int) ∧
      ditherPix pal lf width n j q (4 * j + 1) = (byteAt pal.g ind : Int) ∧
      ditherPix pal lf width n j q (4 * j + 2) = (byteAt pal.b ind : Int)) := by
  have hquant : ∀ (rr gg bb : Int),
      (∃ ind : Nat, ind ≤ 255 ∧
        ditherQuant pal width n j rr gg bb q (4 * j + 3) = (ind : Int) ∧
        ditherQuant pal width n j rr gg bb q (4 * j) = (byteAt pal.r ind : Int) ∧
        ditherQuant pal width n j rr gg bb q (4 * j + 1) = (byteAt pal.g ind : Int) ∧
        ditherQuant pal width n j rr gg bb q (4 * j + 2) = (byteAt pal.b ind : Int)) := by
    intro rr gg bb
    have h0 := dither_index_nonneg pal rr gg bb
    have h255 := dither_index_le pal rr gg bb hbd
    refine ⟨(pal.get_closest_pallete_color (pal.bit_depth + 1) rr gg bb
        (transparency_index : Int) 1000000 1).1.toNat, by omega, ?_, ?_, ?_, ?_⟩ <;>
      (simp only [ditherQuant]
       rw [ditherPropagate_other _ _ _ _ _ _ _ (by omega) (by omega) (by omega),
         ditherPropagate_other _ _ _ _ _ _ _ (by omega) (by omega) (by omega),
         ditherPropagate_other _ _ _ _ _ _ _ (by omega) (by omega) (by omega),
         ditherPropagate_other _ _ _ _ _ _ _ (by omega) (by omega) (by omega)])
    · rw [(updI4_read _ _ _ _ _ _).2.2.2]; omega
    · rw [(updI4_read _ _ _ _ _ _).1]
    · rw [(updI4_read _ _ _ _ _ _).2.1]
    · rw [(updI4_read _ _ _ _ _ _).2.2.1]
  cases lf with
  | none => exact Or.inr (hquant _ _ _)
  | some lfv =>
    simp only [ditherPix]
    by_cases hc : (byteAt lfv (4 * j) : Int) = (q (4 * j) + 127).tdiv 256 ∧
        (byteAt lfv (4 * j + 1) : Int) = (q (4 * j + 1) + 127).tdiv 256 ∧
        (byteAt lfv (4 * j + 2) : Int) = (q (4 * j + 2) + 127).tdiv 256
    · rw [if_pos hc]
      refine Or.inl ⟨lfv, rfl, ?_, ?_, ?_, ?_⟩
      · rw [(updI4_read _ _ _ _ _ _).2.2.2]; simp [transparency_index]
      · rw [(updI4_read _ _ _ _ _ _).1, ← hc.1]
      · rw [(updI4_read _ _ _ _ _ _).2.1, ← hc.2.1]
      · rw [(updI4_read _ _ _ _ _ _).2.2.1, ← hc.2.2]
    · rw [if_neg hc]
      exact Or.inr (hquant _ _ _)

/-- With `width ≥ 2` a pixel's quad is frozen once its own step has run. -/
theorem dither_iter_frozen (pal : Palette) (lf : Option (Nat → Nat)) (width n : Nat)
    (q0 : Nat → Int) (hw2 : 2 ≤ width) :
    ∀ (jend j : Nat), j < jend → ∀ m, m < 4 * (j + 1) →
      iter (fun k q => ditherPix pal lf width n k q) jend q0 m =
      iter (fun k q => ditherPix pal lf width n k q) (j + 1) q0 m := by
  intro jend
  induction jend with
  | zero => intro j hj; omega
  | succ je ih =>
    intro j hj m hm
    by_cases hje : j = je
    · subst hje; rfl
    · have hjlt : j < je := by omega
      have hstep : iter (fun k q => ditherPix pal lf width n k q) (je + 1) q0 m =
          iter (fun k q => ditherPix pal lf width n k q) je q0 m := by
        show ditherPix pal lf width n je
          (iter (fun k q => ditherPix pal lf width n k q) je q0) m = _
        exact ditherPix_lower pal lf width n je _ hw2 m (by omega)
      rw [hstep]
      exact ih j hjlt m hm

/-- Per-pixel characterization of `dither_image` for `width ≥ 2`: each
output quad is the carried-over previous color with index 0, or the queried
palette color with its (byte-sized) index in the fourth channel. -/
theorem dither_image_own (pal : Palette) (lf : Option (Nat → Nat))
    (next out0 : Nat → Nat) (width height : Nat) (hw2 : 2 ≤ width)
    (hbd : pal.bit_depth ≤ 8) (k : Nat) (hk : k < width * height) :
    (∃ lfv, lf = some lfv ∧
      dither_image lf next out0 width height pal (4 * k + 3) = 0 ∧
      dither_image lf next out0 width height pal (4 * k) = byteAt lfv (4 * k) ∧
      dither_image lf next out0 width height pal (4 * k + 1) = byteAt lfv (4 * k + 1) ∧
      dither_image lf next out0 width height pal (4 * k + 2) = byteAt lfv (4 * k + 2)) ∨
    (∃ ind : Nat, ind ≤ 255 ∧
      dither_image lf next out0 width height pal (4 * k + 3) = ind ∧
      dither_image lf next out0 width height pal (4 * k) = byteAt pal.r ind ∧
      dither_image lf next out0 width height pal (4 * k + 1) = byteAt pal.g ind ∧
      dither_image lf next out0 width height pal (4 * k + 2) = byteAt pal.b ind) := by
  have hrd : ∀ c, c < 4 → dither_image lf next out0 width height pal (4 * k + c) =
      ((ditherPix pal lf width (width * height) k
        (iter (fun j q => ditherPix pal lf width (width * height) j q) k
          (fun m => (byteAt next m : Int) * 256)) (4 * k + c)) % 256).toNat := by
    intro c hc
    simp only [dither_image]
    rw [if_pos (by omega)]
    have hfr := dither_iter_frozen pal lf width (width * height)
      (fun m => (byteAt next m : Int) * 256) hw2 (width * height) k hk (4 * k + c) (by omega)
    rw [hfr]
    rfl
  have hnn : ∀ m, 0 ≤ iter (fun j q => ditherPix pal lf width (width * height) j q) k
      (fun m => (byteAt next m : Int) * 256) m := by
    refine iter_inv (P := fun _ (b : Nat → Int) => ∀ m, 0 ≤ b m) k ?_ ?_
    · intro m; positivity
    · intro j b _ hb
      exact ditherPix_nonneg pal lf width (width * height) j b hb
  rcases ditherPix_own pal lf width (width * height) k
      (iter (fun j q => ditherPix pal lf width (width * height) j q) k
        (fun m => (byteAt next m : Int) * 256)) hw2 hbd with
    ⟨lfv, hlf, h3, h0, h1, h2⟩ | ⟨ind, hle, h3, h0, h1, h2⟩
  · refine Or.inl ⟨lfv, hlf, ?_, ?_, ?_, ?_⟩
    · rw [hrd 3 (by norm_num), h3]; rfl
    · have hrd0 := hrd 0 (by norm_num)
      simp only [Nat.add_zero] at hrd0 h0
      rw [hrd0, h0]
      have := byteAt_lt lfv (4 * k)
      omega
    · rw [hrd 1 (by norm_num), h1]
      have := byteAt_lt lfv (4 * k + 1)
      omega
    · rw [hrd 2 (by norm_num), h2]
      have := byteAt_lt lfv (4 * k + 2)
      omega
  · refine Or.inr ⟨ind, hle, ?_, ?_, ?_, ?_⟩
    · rw [hrd 3 (by norm_num), h3]
      omega
    · have hrd0 := hrd 0 (by norm_num)
      simp only [Nat.add_zero] at hrd0 h0
      rw [hrd0, h0]
      have := byteAt_lt pal.r ind
      omega
    · rw [hrd 1 (by norm_num), h1]
      have := byteAt_lt pal.g ind
      omega
    · rw [hrd 2 (by norm_num), h2]
      have := byteAt_lt pal.b ind
      omega

/-- Per-pixel characterization of `threshold_image` in the same shape. -/
theorem threshold_image_own (pal : Palette) (lf : Option (Nat → Nat))
    (next out0 : Nat → Nat) (width height : Nat) (hbd : pal.bit_depth ≤ 8)
    (k : Nat) (hk : k < width * height) :
    (∃ lfv, lf = some lfv ∧
      threshold_image lf next out0 width height pal (4 * k + 3) = 0 ∧
      threshold_image lf next out0 width height pal (4 * k) = byteAt lfv (4 * k) ∧
      threshold_image lf next out0 width height pal (4 * k + 1) = byteAt lfv (4 * k + 1) ∧
      threshold_image lf next out0 width height pal (4 * k + 2) = byteAt lfv (4 * k + 2)) ∨
    (∃ ind : Nat, ind ≤ 255 ∧
      threshold_image lf next out0 width height pal (4 * k + 3) = ind ∧
      threshold_image lf next out0 width height pal (4 * k) = byteAt pal.r ind ∧
      threshold_image lf next out0 width height pal (4 * k + 1) = byteAt pal.g ind ∧
      threshold_image lf next out0 width height pal (4 * k + 2) = byteAt pal.b ind) := by
  have hrd : ∀ c, c < 4 → threshold_image lf next out0 width height pal (4 * k + c) =
      thresholdStep pal lf next k out0 (4 * k + c) :=
    fun c hc => threshold_image_pix pal lf next out0 width height k hk c hc
  have hq := thresholdQuant_read pal next k out0 hbd
  have hle := threshold_index_le pal (byteAt next (4 * k)) (byteAt next (4 * k + 1))
    (byteAt next (4 * k + 2)) hbd
  cases lf with
  | none =>
    refine Or.inr ⟨_, hle, ?_, ?_, ?_, ?_⟩
    · rw [hrd 3 (by norm_num)]; exact hq.2.2.2
    · have hrd0 := hrd 0 (by norm_num)
      simp only [Nat.add_zero] at hrd0
      rw [hrd0]
      simpa only [Nat.add_zero] using hq.1
    · rw [hrd 1 (by norm_num)]; exact hq.2.1
    · rw [hrd 2 (by norm_num)]; exact hq.2.2.1
  | some lfv =>
    by_cases hc : byteAt lfv (4 * k) = byteAt next (4 * k) ∧
        byteAt lfv (4 * k + 1) = byteAt next (4 * k + 1) ∧
        byteAt lfv (4 * k + 2) = byteAt next (4 * k + 2)
    · have hstep : ∀ c, c < 4 → thresholdStep pal (some lfv) next k out0 (4 * k + c) =
          updN (updN (updN (updN out0 (4 * k) (byteAt lfv (4 * k)))
            (4 * k + 1) (byteAt lfv (4 * k + 1)))
            (4 * k + 2) (byteAt lfv (4 * k + 2))) (4 * k + 3) transparency_index (4 * k + c) := by
        intro c _
        simp only [thresholdStep]
        rw [if_pos hc]
      refine Or.inl ⟨lfv, rfl, ?_, ?_, ?_, ?_⟩
      · rw [hrd 3 (by norm_num), hstep 3 (by norm_num)]
        exact (updN4_read _ _ _ _ _ _).2.2.2
      · have hrd0 := hrd 0 (by norm_num)
        have hs0 := hstep 0 (by norm_num)
        simp only [Nat.add_zero] at hrd0 hs0
        rw [hrd0, hs0]
        exact (updN4_read _ _ _ _ _ _).1
      · rw [hrd 1 (by norm_num), hstep 1 (by norm_num)]
        exact (updN4_read _ _ _ _ _ _).2.1
      · rw [hrd 2 (by norm_num), hstep 2 (by norm_num)]
        exact (updN4_read _ _ _ _ _ _).2.2.1
    · have hstep : ∀ c, c < 4 → thresholdStep pal (some lfv) next k out0 (4 * k + c) =
          thresholdQuant pal next k out0 (4 * k + c) := by
        intro c _
        simp only [thresholdStep]
        rw [if_neg hc]
      refine Or.inr ⟨_, hle, ?_, ?_, ?_, ?_⟩
      · rw [hrd 3 (by norm_num), hstep 3 (by norm_num)]; exact hq.2.2.2
      · have hrd0 := hrd 0 (by norm_num)
        have hs0 := hstep 0 (by norm_num)
        simp only [Nat.add_zero] at hrd0 hs0
        rw [hrd0, hs0]
        simpa only [Nat.add_zero] using hq.1
      · rw [hrd 1 (by norm_num), hstep 1 (by norm_num)]; exact hq.2.1
      · rw [hrd 2 (by norm_num), hstep 2 (by norm_num)]; exact hq.2.2.1

theorem write_frame_old_image (w : Writer) (hopen : w.f_open = true)
    (image : Nat → Nat) (width height delay bit_depth : Nat) (dither : Bool)
    (pal_init : Palette) :
    (w.write_frame image width height delay bit_depth dither pal_init).1.old_image =
      (if dither then
        dither_image (if w.first_frame then none else some w.old_image) image w.old_image
          width height
          (Palette.make pal_init
            (if dither then none else if w.first_frame then none else some w.old_image)
            image width height bit_depth dither)
      else
        threshold_image (if w.first_frame then none else some w.old_image) image w.old_image
          width height
          (Palette.make pal_init
            (if dither then none else if w.first_frame then none else some w.old_image)
            image width height bit_depth dither)) := by
  simp only [Writer.write_frame]
  rw [if_neg (by simp [hopen])]

/-- **C4 amended** (previous-frame buffer invariant): after every successful
`write_frame` with dither off — or with dither on and `width ≥ 2` — every
stored pixel quad holds, in its fourth byte, the palette index that the LZW
encoder reads as its input symbol, and in its RGB bytes either the
carried-over previous reconstructed color (when the index is 0 from the
delta match) or the palette color of that index (the decoder-reconstructed
color whenever the index is nonzero; under extreme dither error overshoot
the query can yield index 0, stored with the palette's entry (0,0,0)).
With dither on and `width = 1` even this fails — see the counterexample. -/
theorem C4_previous_frame_buffer_invariant (w : Writer) (hopen : w.f_open = true)
    (image : Nat → Nat) (width height delay bit_depth : Nat) (dither : Bool)
    (pal_init : Palette) (hbd8 : bit_depth ≤ 8)
    (hdw : dither = false ∨ 2 ≤ width) (k : Nat) (hk : k < width * height) :
    ∃ buf pal',
      (w.write_frame image width height delay bit_depth dither pal_init).1.old_image = buf ∧
      Palette.make pal_init
        (if dither then none else if w.first_frame then none else some w.old_image)
        image width height bit_depth dither = pal' ∧
      (lzwSymbols buf (width * height))[k]? = some (byteAt buf (4 * k + 3)) ∧
      byteAt buf (4 * k + 3) = buf (4 * k + 3) ∧
      ((w.first_frame = false ∧ buf (4 * k + 3) = 0 ∧
        buf (4 * k) = byteAt w.old_image (4 * k) ∧
        buf (4 * k + 1) = byteAt w.old_image (4 * k + 1) ∧
        buf (4 * k + 2) = byteAt w.old_image (4 * k + 2)) ∨
       (buf (4 * k + 3) ≤ 255 ∧
        buf (4 * k) = byteAt pal'.r (buf (4 * k + 3)) ∧
        buf (4 * k + 1) = byteAt pal'.g (buf (4 * k + 3)) ∧
        buf (4 * k + 2) = byteAt pal'.b (buf (4 * k + 3)))) := by
  refine ⟨(w.write_frame image width height delay bit_depth dither pal_init).1.old_image,
    Palette.make pal_init
      (if dither then none else if w.first_frame then none else some w.old_image)
      image width height bit_depth dither, rfl, rfl, ?_⟩
  have hbuf := write_frame_old_image w hopen image width height delay bit_depth dither pal_init
  have hbd' : (Palette.make pal_init
      (if dither then none else if w.first_frame then none else some w.old_image)
      image width height bit_depth dither).bit_depth ≤ 8 := by
    rw [(palette_make_facts pal_init _ image width height bit_depth dither).1]
    exact hbd8
  have hdisj : (∃ lfv, (if w.first_frame then none else some w.old_image :
        Option (Nat → Nat)) = some lfv ∧
      (w.write_frame image width height delay bit_depth dither pal_init).1.old_image (4 * k + 3) = 0 ∧
      (w.write_frame image width height delay bit_depth dither pal_init).1.old_image (4 * k) = byteAt lfv (4 * k) ∧
      (w.write_frame image width height delay bit_depth dither pal_init).1.old_image (4 * k + 1) = byteAt lfv (4 * k + 1) ∧
      (w.write_frame image width height delay bit_depth dither pal_init).1.old_image (4 * k + 2) = byteAt lfv (4 * k + 2)) ∨
      (∃ ind : Nat, ind ≤ 255 ∧
      (w.write_frame image width height delay bit_depth dither pal_init).1.old_image (4 * k + 3) = ind ∧
      (w.write_frame image width height delay bit_depth dither pal_init).1.old_image (4 * k) = byteAt (Palette.make pal_init
        (if dither then none else if w.first_frame then none else some w.old_image)
        image width height bit_depth dither).r ind ∧
      (w.write_frame image width height delay bit_depth dither pal_init).1.old_image (4 * k + 1) = byteAt (Palette.make pal_init
        (if dither then none else if w.first_frame then none else some w.old_image)
        image width height bit_depth dither).g ind ∧
      (w.write_frame image width height delay bit_depth dither pal_init).1.old_image (4 * k + 2) = byteAt (Palette.make pal_init
        (if dither then none else if w.first_frame then none else some w.old_image)
        image width height bit_depth dither).b ind) := by
    by_cases hd : dither = true
    · have hw2 : 2 ≤ width := by
        rcases hdw with h | h
        · rw [hd] at h; cases h
        · exact h
      rw [hbuf, if_pos hd]
      exact dither_image_own _ _ image w.old_image width height hw2 hbd' k hk
    · have hd' : dither = false := by
        cases dither
        · rfl
        · exact absurd rfl hd
      have hnd : ¬dither = true := by simp [hd']
      rw [hbuf, if_neg hnd]
      exact threshold_image_own _ _ image w.old_image width height hbd' k hk
  have hsym : (lzwSymbols ((w.write_frame image width height delay bit_depth dither
      pal_init).1.old_image) (width * height))[k]? =
      some (byteAt ((w.write_frame image width height delay bit_depth dither
        pal_init).1.old_image) (4 * k + 3)) := by
    simp [lzwSymbols, List.getElem?_map, List.getElem?_range, hk]
  rcases hdisj with ⟨lfv, hlf, h3, h0, h1, h2⟩ | ⟨ind, hle, h3, h0, h1, h2⟩
  · by_cases hff : w.first_frame = true
    · rw [if_pos hff] at hlf
      cases hlf
    · have hff' : w.first_frame = false := by
        cases hw : w.first_frame
        · rfl
        · exact absurd hw hff
      rw [if_neg hff] at hlf
      have hlfe : lfv = w.old_image := (Option.some.inj hlf).symm
      subst hlfe
      refine ⟨hsym, ?_, Or.inl ⟨hff', h3, h0, h1, h2⟩⟩
      simp only [byteAt]
      omega
  · refine ⟨hsym, ?_, Or.inr ⟨by omega, ?_, ?_, ?_⟩⟩
    · simp only [byteAt]
      omega
    · rw [h0, h3]
    · rw [h1, h3]
    · rw [h2, h3]

/-- Witness for the amended C4: a concrete first frame, 1×1, threshold. -/
theorem C4_previous_frame_buffer_invariant_witness :
    (⟨true, fun _ => 0, true⟩ : Writer).f_open = true ∧ (0 : Nat) < 1 * 1 ∧
    ∃ buf pal',
      ((⟨true, fun _ => 0, true⟩ : Writer).write_frame (fun _ => 0) 1 1 0 1 false
        ⟨0, fun _ => 0, fun _ => 0, fun _ => 0, fun _ => 0, fun _ => 0⟩).1.old_image = buf ∧
      Palette.make ⟨0, fun _ => 0, fun _ => 0, fun _ => 0, fun _ => 0, fun _ => 0⟩
        (if false then none else if (⟨true, fun _ => 0, true⟩ : Writer).first_frame then none
          else some (⟨true, fun _ => 0, true⟩ : Writer).old_image)
        (fun _ => 0) 1 1 1 false = pal' ∧
      (lzwSymbols buf (1 * 1))[0]? = some (byteAt buf (4 * 0 + 3)) ∧
      byteAt buf (4 * 0 + 3) = buf (4 * 0 + 3) ∧
      (((⟨true, fun _ => 0, true⟩ : Writer).first_frame = false ∧ buf (4 * 0 + 3) = 0 ∧
        buf (4 * 0) = byteAt (⟨true, fun _ => 0, true⟩ : Writer).old_image (4 * 0) ∧
        buf (4 * 0 + 1) = byteAt (⟨true, fun _ => 0, true⟩ : Writer).old_image (4 * 0 + 1) ∧
        buf (4 * 0 + 2) = byteAt (⟨true, fun _ => 0, true⟩ : Writer).old_image (4 * 0 + 2)) ∨
       (buf (4 * 0 + 3) ≤ 255 ∧
        buf (4 * 0) = byteAt pal'.r (buf (4 * 0 + 3)) ∧
        buf (4 * 0 + 1) = byteAt pal'.g (buf (4 * 0 + 3)) ∧
        buf (4 * 0 + 2) = byteAt pal'.b (buf (4 * 0 + 3)))) :=
  ⟨rfl, by norm_num,
    C4_previous_frame_buffer_invariant ⟨true, fun _ => 0, true⟩ rfl (fun _ => 0) 1 1 0 1 false
      ⟨0, fun _ => 0, fun _ => 0, fun _ => 0, fun _ => 0, fun _ => 0⟩ (by norm_num)
      (Or.inl rfl) 0 (by norm_num)⟩

/-- Counterexample to C4 as stated: with dither on and `width = 1` the 3/16
error share lands on the *current* pixel after it was finalized, so the
stored RGB (208,208,208) is neither the carried-over previous color (the
zeroed initial buffer) nor the palette color (0,0,0) of the stored index 1 —
a conforming decoder reconstructs (0,0,0) there. -/
theorem C4_previous_frame_buffer_invariant_counterexample :
    ((Writer.open 1 2 0).1.write_frame (fun m => if m < 4 then 255 else if m = 7 then 255 else 0)
        1 2 0 1 true ⟨0, fun _ => 0, fun _ => 0, fun _ => 0, fun _ => 0, fun _ => 0⟩).1.old_image 0 = 208 ∧
    ((Writer.open 1 2 0).1.write_frame (fun m => if m < 4 then 255 else if m = 7 then 255 else 0)
        1 2 0 1 true ⟨0, fun _ => 0, fun _ => 0, fun _ => 0, fun _ => 0, fun _ => 0⟩).1.old_image 3 = 1 ∧
    byteAt (Palette.make ⟨0, fun _ => 0, fun _ => 0, fun _ => 0, fun _ => 0, fun _ => 0⟩ none
      (fun m => if m < 4 then 255 else if m = 7 then 255 else 0) 1 2 1 true).r 1 = 0 ∧
    byteAt (Writer.open 1 2 0).1.old_image 0 = 0 ∧
    ¬((((Writer.open 1 2 0).1.write_frame (fun m => if m < 4 then 255 else if m = 7 then 255 else 0)
          1 2 0 1 true ⟨0, fun _ => 0, fun _ => 0, fun _ => 0, fun _ => 0, fun _ => 0⟩).1.old_image 3 = 0 ∧
        ((Writer.open 1 2 0).1.write_frame (fun m => if m < 4 then 255 else if m = 7 then 255 else 0)
          1 2 0 1 true ⟨0, fun _ => 0, fun _ => 0, fun _ => 0, fun _ => 0, fun _ => 0⟩).1.old_image 0 =
          byteAt (Writer.open 1 2 0).1.old_image 0) ∨
      ((Writer.open 1 2 0).1.write_frame (fun m => if m < 4 then 255 else if m = 7 then 255 else 0)
          1 2 0 1 true ⟨0, fun _ => 0, fun _ => 0, fun _ => 0, fun _ => 0, fun _ => 0⟩).1.old_image 0 =
        byteAt (Palette.make ⟨0, fun _ => 0, fun _ => 0, fun _ => 0, fun _ => 0, fun _ => 0⟩ none
          (fun m => if m < 4 then 255 else if m = 7 then 255 else 0) 1 2 1 true).r
          (((Writer.open 1 2 0).1.write_frame (fun m => if m < 4 then 255 else if m = 7 then 255 else 0)
            1 2 0 1 true ⟨0, fun _ => 0, fun _ => 0, fun _ => 0, fun _ => 0, fun _ => 0⟩).1.old_image 3)) := by
  decide

end C4Section

end Giffer
